import Mathlib
/-!
Verification of the CSV import pipeline of `ProductManager.py`
(Ecomm-Supplier-Dashboard).

The pipeline's pure pieces (`_normalize_header`, `_dedupe_headers`,
`_build_header_map`, `_to_float`, `_to_int`, `_sanitize_cell`,
`_detect_encoding`) are embedded directly.  The stateful import worker
(`import_csv.worker` and its nested `flush_batch`) is embedded as explicit
state passing over a `LoopState`; the destination SQLite store is modelled
as a list of records ordered by insertion (the `sku UNIQUE` table), and the
transaction discipline (`BEGIN` ... `COMMIT` / `ROLLBACK`) is modelled by
keeping the committed store separate from the working store: only a final
commit publishes the working store, and the exception path publishes the
untouched pre-run store.  Store behaviour (success, rejection of the atomic
upsert form — `sqlite3.OperationalError` —, or a fatal connection failure)
is an oracle `env` indexed by the flush counter.  Python `float` parsing is
abstracted to exact rationals over the plain decimal-literal grammar
(IEEE rounding, exponents and infinities are out of scope of the claims).
-/

/-- Python whitespace for `str.strip` (space, tab, LF, CR, VT, FF). -/
def isPySpace (c : Char) : Bool :=
  c == ' ' || c == '\t' || c == '\n' || c == '\r' || c == Char.ofNat 11 || c == Char.ofNat 12

/-- `str.strip()`: drop leading and trailing whitespace. -/
def pyStrip (s : String) : String :=
  ⟨((s.data.dropWhile isPySpace).reverse.dropWhile isPySpace).reverse⟩

/-- `str.lower()` (ASCII letters; the sentinel and synonym comparisons in the
source only involve ASCII). -/
def pyLower (s : String) : String :=
  ⟨s.data.map Char.toLower⟩

/-- `str.replace(c, "")`: remove every occurrence of one character. -/
def removeChar (c : Char) (s : String) : String :=
  ⟨s.data.filter (fun x => !(x == c))⟩

/-- `str.replace(a, b)` for single characters. -/
def replaceChar (a b : Char) (s : String) : String :=
  ⟨s.data.map (fun x => if x == a then b else x)⟩

/-- Auxiliary for `str.replace("\r\n", "\n")`: left-to-right, non-overlapping. -/
def replaceCRLFList : List Char → List Char
  | [] => []
  | '\r' :: '\n' :: rest => '\n' :: replaceCRLFList rest
  | c :: rest => c :: replaceCRLFList rest

/-- `str.replace("\r\n", "\n")`. -/
def replaceCRLF (s : String) : String :=
  ⟨replaceCRLFList s.data⟩

/-- Decimal rendering of one digit, as in `Nat.digitChar`. -/
def digitChar (n : ℕ) : Char :=
  if n = 0 then '0' else if n = 1 then '1' else if n = 2 then '2'
  else if n = 3 then '3' else if n = 4 then '4' else if n = 5 then '5'
  else if n = 6 then '6' else if n = 7 then '7' else if n = 8 then '8'
  else if n = 9 then '9' else '*'

/-- Fuel-driven decimal rendering accumulator (the fuel `n + 1` always
suffices, mirroring core's `Nat.toDigitsCore`). -/
def natDecCore : ℕ → ℕ → List Char → List Char
  | 0, _, acc => acc
  | fuel + 1, n, acc =>
    if n < 10 then digitChar (n % 10) :: acc
    else natDecCore fuel (n / 10) (digitChar (n % 10) :: acc)

/-- Decimal rendering of a natural number, as produced by a Python
f-string such as `f"{base}{seen[base]}"` and `f"[Line {line_no}]"`. -/
def natDec (n : ℕ) : String :=
  ⟨natDecCore (n + 1) n []⟩

/-- `_normalize_header`: strip, lower-case, turn non-breaking spaces into
spaces, then delete spaces, hyphens and underscores. -/
def normalize_header (h : String) : String :=
  removeChar '_' (removeChar '-' (removeChar ' '
    (replaceChar (Char.ofNat 0xA0) ' ' (pyLower (pyStrip h)))))

/-- The dictionary `seen` of `_dedupe_headers`, embedded as a partial map. -/
def bumpSeen (seen : String → Option ℕ) (base : String) (n : ℕ) :
    String → Option ℕ :=
  fun b => if b = base then some n else seen b

/-- Loop of `_dedupe_headers`: first occurrence of a token records count 0 and
is kept; each later occurrence increments the count and appends it. -/
def dedupeHeadersGo (seen : String → Option ℕ) : List String → List String
  | [] => []
  | base :: rest =>
    match seen base with
    | some n => (base ++ natDec (n + 1)) :: dedupeHeadersGo (bumpSeen seen base (n + 1)) rest
    | none => base :: dedupeHeadersGo (bumpSeen seen base 0) rest

/-- `_dedupe_headers`. -/
def dedupe_headers (headers : List String) : List String :=
  dedupeHeadersGo (fun _ => none) headers

/-- The eight canonical target fields of the import. -/
inductive Target where
  | sku | name | price | stock | category | status | image_path | description
deriving DecidableEq

/-- The synonym table of `_build_header_map` (Python sets, embedded as lists
used only through membership). -/
def synonyms : Target → List String
  | .sku => ["sku", "productcode", "code", "itemcode", "id", "productid"]
  | .name => ["name", "title", "productname", "descriptionshort", "itemname"]
  | .price => ["price", "unitprice", "sellprice", "rrp", "priceex", "priceinctax"]
  | .stock => ["stock", "qty", "quantity", "onhand", "inventory"]
  | .category => ["category", "cat", "segment"]
  | .status => ["status", "state", "enabled", "active"]
  | .image_path => ["image", "imagepath", "imageurl", "picture", "img"]
  | .description => ["description", "longdescription", "fulldescription", "details", "notes"]

/-- Inner loop of `_build_header_map`: `for i, src in enumerate(hdrs_norm):
if src in keys: mapping[target] = i; break`. -/
def findSynIdx (keys : List String) : List String → ℕ → Option ℕ
  | [], _ => none
  | h :: rest, i => if keys.contains h then some i else findSynIdx keys rest (i + 1)

/-- `_build_header_map`: each target maps to the first (leftmost) column whose
normalized header is in the target's synonym set, if any.  (The Python dict
is built target by target; entries are independent, so it is a function.) -/
def build_header_map (hdrsNorm : List String) : Target → Option ℕ :=
  fun t => findSynIdx (synonyms t) hdrsNorm 0

/-- The blank/sentinel set of `_to_float` and `_to_int`. -/
def sentinels : List String := ["n/a", "na", "null", "none", "-"]

/-- Digit run to a natural number. -/
def digitsToNat (cs : List Char) : ℕ :=
  cs.foldl (fun a c => 10 * a + (c.toNat - 48)) 0

/-- Unsigned part of Python `float()` on a plain decimal literal:
digits, with an optional point and fractional digits. -/
def parseFloatCore (cs : List Char) : Option ℚ :=
  let ip := cs.takeWhile (·.isDigit)
  let rest := cs.dropWhile (·.isDigit)
  match rest with
  | [] => if ip.isEmpty then none else some (digitsToNat ip : ℚ)
  | '.' :: frac =>
    if frac.all (·.isDigit) && (!ip.isEmpty || !frac.isEmpty) then
      some ((digitsToNat ip : ℚ) + (digitsToNat frac : ℚ) / (10 : ℚ) ^ frac.length)
    else none
  | _ => none

/-- Python `float()` restricted to decimal literals with optional sign,
valued in exact rationals. -/
def parseFloat (s : String) : Option ℚ :=
  match s.data with
  | '+' :: rest => parseFloatCore rest
  | '-' :: rest => (parseFloatCore rest).map (fun q => -q)
  | cs => parseFloatCore cs

/-- `_to_float`: blank or sentinel to zero; strip currency symbols and
commas; parse; zero on parse failure. -/
def to_float (x : String) : ℚ :=
  let s := pyStrip x
  if s == "" || sentinels.contains (pyLower s) then 0
  else
    let s1 := removeChar ',' (removeChar '£' (removeChar '€' (removeChar '$' s)))
    match parseFloat s1 with
    | some q => q
    | none => 0

/-- Truncation toward zero, Python `int(float(...))` on a rational. -/
def ratTrunc (q : ℚ) : ℤ :=
  q.num.tdiv (q.den : ℤ)

/-- `_to_int`: blank or sentinel to zero; strip commas; parse as a number and
truncate toward zero; zero on parse failure. -/
def to_int (x : String) : ℤ :=
  let s := pyStrip x
  if s == "" || sentinels.contains (pyLower s) then 0
  else
    match parseFloat (removeChar ',' s) with
    | some q => ratTrunc q
    | none => 0

/-- `_sanitize_cell`: delete NULs, normalize CRLF and lone CR to LF, strip. -/
def sanitize_cell (s : String) : String :=
  pyStrip (replaceChar '\r' '\n' (replaceCRLF (removeChar (Char.ofNat 0) s)))

/-- One sanitized product record, the tuple bound into the SQL statements
(`sku, name, price, stock, category, status, image_path, description`). -/
structure Record where
  sku : String
  name : String
  price : ℚ
  stock : ℤ
  category : String
  status : String
  image_path : String
  description : String
deriving DecidableEq

/-- The `products` table, as the ordered list of its rows; `sku` is the
unique natural key. -/
abbrev Store := List Record

/-- The sku column of the store. -/
def skusOf (db : Store) : List String :=
  db.map Record.sku

/-- `SELECT ... FROM products WHERE sku=?` (first matching row). -/
def lookupSku (db : Store) (k : String) : Option Record :=
  db.find? (fun r => r.sku == k)

/-- The row produced by `UPDATE products SET name=?, price=?, ... WHERE sku=?`
on an existing row `x`: every non-key column is overwritten from `r`. -/
def overwriteRow (x r : Record) : Record :=
  ⟨x.sku, r.name, r.price, r.stock, r.category, r.status, r.image_path, r.description⟩

/-- One tuple of the atomic path: `INSERT ... ON CONFLICT(sku) DO UPDATE SET
name=excluded.name, ...`. -/
def upsertConflict (db : Store) (r : Record) : Store :=
  if db.any (fun x => x.sku == r.sku) then
    db.map (fun x => if x.sku == r.sku then overwriteRow x r else x)
  else db ++ [r]

/-- One tuple of the per-record fallback path: `SELECT id ... WHERE sku=?`,
then `UPDATE ... WHERE sku=?` if found, else `INSERT`. -/
def upsertManual (db : Store) (r : Record) : Store :=
  match lookupSku db r.sku with
  | some _ =>
    db.map (fun x => if x.sku == r.sku then overwriteRow x r else x)
  | none => db ++ [r]

/-- `cur.executemany(upsert_sql, batch)`: the tuples in file order. -/
def applyConflict (db : Store) (batch : List Record) : Store :=
  batch.foldl upsertConflict db

/-- The `for tpl in batch` loop of the fallback path. -/
def applyManual (db : Store) (batch : List Record) : Store :=
  batch.foldl upsertManual db

/-- Behaviour of the store on one executed flush: accept, reject the atomic
upsert form (`sqlite3.OperationalError`), or fail fatally. -/
inductive StoreResp where
  | ok | rejectAtomic | fatalStore
deriving DecidableEq

/-- The one unrecoverable error of the model: the store connection failing
mid-run (any exception that reaches the worker's outer handler). -/
inductive StoreErr where
  | fatal
deriving DecidableEq

/-- Which execution path a flush took (for the sticky-fallback claims):
atomic upsert succeeded; atomic upsert was rejected and the batch was
re-applied per record; or the flush went directly to the per-record path. -/
inductive FlushEvent where
  | atomicOk | fallback | perRecord
deriving DecidableEq

/-- The mutable state of `worker`'s row loop: the pending batch, the skipped
counter, the diagnostics, the 1-based line counter, the sticky `have_upsert`
flag, the number of executed flushes (indexing the store oracle), the working
(uncommitted) contents of the open transaction, and the flush trace. -/
structure LoopState where
  batch : List Record
  skipped : ℕ
  errorLines : List String
  lineNo : ℕ
  haveUpsert : Bool
  flushCount : ℕ
  working : Store
  trace : List FlushEvent
deriving DecidableEq

/-- `flush_batch`: nothing happens on an empty batch; otherwise the atomic
upsert is attempted while `have_upsert` holds — on `OperationalError` the
flag is cleared and the same batch is re-applied per record (the recursive
call) — and once the flag is cleared every flush goes per record.  A fatal
store failure raises out of `flush_batch` before `batch.clear()` is reached,
so the batch is retained and the exception is handed to the caller together
with the state; the failing attempt is modelled as applying none of its
batch (any tuples the store did apply inside the open transaction are
rewritten identically when the retained batch is re-flushed, the upsert
being idempotent per tuple).  The oracle is consulted once per flush
attempt, executed or failed. -/
def flushBatch (env : ℕ → StoreResp) (st : LoopState) : LoopState × Option StoreErr :=
  if st.batch.isEmpty then (st, none)
  else if st.haveUpsert then
    match env st.flushCount with
    | .ok =>
      ({ st with
         batch := [], working := applyConflict st.working st.batch,
         flushCount := st.flushCount + 1, trace := st.trace ++ [.atomicOk] }, none)
    | .rejectAtomic =>
      ({ st with
         batch := [], haveUpsert := false,
         working := applyManual st.working st.batch,
         flushCount := st.flushCount + 1, trace := st.trace ++ [.fallback] }, none)
    | .fatalStore => ({ st with flushCount := st.flushCount + 1 }, some .fatal)
  else
    match env st.flushCount with
    | .fatalStore => ({ st with flushCount := st.flushCount + 1 }, some .fatal)
    | _ =>
      ({ st with
         batch := [], working := applyManual st.working st.batch,
         flushCount := st.flushCount + 1, trace := st.trace ++ [.perRecord] }, none)

/-- `vals`: the row padded/truncated to the header width, each cell
sanitized (`row[i]` if present, else `""`). -/
def rowVals (hdrsNorm : List String) (row : List String) : List String :=
  (List.range hdrsNorm.length).map
    (fun i => if i < row.length then sanitize_cell (row.getD i "") else "")

/-- `get_by_target`: the mapped column's cell, or `""` when the target is
unmapped or the index is out of range. -/
def getByTarget (tmap : Target → Option ℕ) (vals : List String) (t : Target) : String :=
  match tmap t with
  | some idx => if idx < vals.length then vals.getD idx "" else ""
  | none => ""

/-- Row acceptance test of the worker: `if not sku or not name`. -/
def rowRejected (hdrsNorm : List String) (tmap : Target → Option ℕ)
    (row : List String) : Bool :=
  let vals := rowVals hdrsNorm row
  getByTarget tmap vals .sku == "" || getByTarget tmap vals .name == ""

/-- The record built from an accepted row. -/
def rowRecord (hdrsNorm : List String) (tmap : Target → Option ℕ)
    (row : List String) : Record :=
  let vals := rowVals hdrsNorm row
  { sku := getByTarget tmap vals .sku
    name := getByTarget tmap vals .name
    price := to_float (getByTarget tmap vals .price)
    stock := to_int (getByTarget tmap vals .stock)
    category := getByTarget tmap vals .category
    status := getByTarget tmap vals .status
    image_path := getByTarget tmap vals .image_path
    description := getByTarget tmap vals .description }

/-- The diagnostic recorded for a rejected row. -/
def skipMsg (lineNo : ℕ) : String :=
  "[Line " ++ natDec lineNo ++ "] Missing SKU or Name; row skipped."

/-- The rendering of the store exception caught by the per-row handler.  The
store's own message text is opaque to the worker, so it is abstracted to a
fixed placeholder; no claim depends on it. -/
def storeErrText : StoreErr → String :=
  fun _ => "store error"

/-- The diagnostic `f"[Line {line_no}] {e}"` recorded by the per-row handler
when the exception `e` reaches it — in this model, when a mid-stream
`flush_batch` fails fatally. -/
def rowErrMsg (lineNo : ℕ) (e : StoreErr) : String :=
  "[Line " ++ natDec lineNo ++ "] " ++ storeErrText e

/-- `BATCH_SIZE` of the worker. -/
def BATCH_SIZE : ℕ := 500

/-- One iteration of `for row in reader`: bump the line counter, resolve the
cells, either record a skip diagnostic or append the record to the batch,
and flush when the batch reaches `BATCH_SIZE`.  The whole body sits inside
the per-row `try`, so a fatal store failure raised by the mid-stream
`flush_batch()` call is caught right here: it counts as one skipped row,
its message is logged against the current line, the batch stays retained,
and the loop continues — it does not abort the run. -/
def processRow (env : ℕ → StoreResp) (hdrsNorm : List String)
    (tmap : Target → Option ℕ) (st : LoopState) (row : List String) : LoopState :=
  let line := st.lineNo + 1
  if rowRejected hdrsNorm tmap row then
    { st with
      lineNo := line, skipped := st.skipped + 1,
      errorLines := st.errorLines ++ [skipMsg line] }
  else
    let st2 := { st with
                 lineNo := line,
                 batch := st.batch ++ [rowRecord hdrsNorm tmap row] }
    if BATCH_SIZE ≤ st2.batch.length then
      match flushBatch env st2 with
      | (st3, none) => st3
      | (st3, some e) =>
        { st3 with
          skipped := st3.skipped + 1,
          errorLines := st3.errorLines ++ [rowErrMsg line e] }
    else st2

/-- The whole `for row in reader` loop.  No exception escapes it: row-level
errors and mid-stream flush failures are absorbed row by row. -/
def processRows (env : ℕ → StoreResp) (hdrsNorm : List String)
    (tmap : Target → Option ℕ) (st : LoopState) :
    List (List String) → LoopState
  | [] => st
  | row :: rest => processRows env hdrsNorm tmap (processRow env hdrsNorm tmap st row) rest

/-- The row loop followed by the unconditional trailing `flush_batch()` at
end of stream.  Only this trailing flush sits outside the per-row handler,
so only its failure can propagate to the outer rollback handler. -/
def processFile (env : ℕ → StoreResp) (hdrsNorm : List String)
    (tmap : Target → Option ℕ) (st : LoopState) (rows : List (List String)) :
    Except StoreErr LoopState :=
  match flushBatch env (processRows env hdrsNorm tmap st rows) with
  | (st2, none) => .ok st2
  | (_, some e) => .error e

/-- The state at `cur.execute("BEGIN")`: the open transaction's working store
starts from the committed store. -/
def initState (committed : Store) : LoopState :=
  { batch := [], skipped := 0, errorLines := [], lineNo := 1, haveUpsert := true,
    flushCount := 0, working := committed, trace := [] }

/-- What the run publishes: the committed store after the run, whether a
fatal error was surfaced to the caller (the `Failed to import` message box),
and the run's counters, diagnostics and flush trace. -/
structure RunOutput where
  committed : Store
  fatalError : Bool
  skipped : ℕ
  diagnostics : List String
  trace : List FlushEvent
deriving DecidableEq

/-- The header pipeline of the worker: normalize every raw header, then
deduplicate (`headers_norm` at the `_build_header_map` call site). -/
def normHeaders (rawHeaders : List String) : List String :=
  dedupe_headers (rawHeaders.map normalize_header)

/-- The import run of `worker` on an already-parsed file: an absent or empty
header row aborts before any data row; otherwise the headers are normalized,
deduplicated and mapped, the rows are processed inside the one open
transaction, and a final `conn.commit()` publishes the working store — while
an error escaping the row loop (in this model: only the trailing end-of-file
flush failing) rolls the transaction back, leaving the committed store
exactly as it was before the run, and surfaces a fatal error. -/
def importRun (env : ℕ → StoreResp) (initial : Store) (rawHeaders : List String)
    (rows : List (List String)) : RunOutput :=
  if rawHeaders.isEmpty then
    { committed := initial, fatalError := true, skipped := 0, diagnostics := [], trace := [] }
  else
    let hdrsNorm := normHeaders rawHeaders
    let tmap := build_header_map hdrsNorm
    match processFile env hdrsNorm tmap (initState initial) rows with
    | .ok st =>
      { committed := st.working, fatalError := false, skipped := st.skipped,
        diagnostics := st.errorLines, trace := st.trace }
    | .error _ =>
      { committed := initial, fatalError := true, skipped := 0, diagnostics := [], trace := [] }

/-- `bytes.startswith(sig)` on byte lists. -/
def bytesStartWith : List ℕ → List ℕ → Bool
  | [], _ => true
  | _ :: _, [] => false
  | s :: ss, b :: bs => s == b && bytesStartWith ss bs

/-- A UTF-8 continuation byte (`0x80`–`0xBF`). -/
def utf8Cont (b : ℕ) : Bool :=
  0x80 ≤ b && b ≤ 0xBF

/-- Python `bytes.decode("utf-8")` succeeding: the standard UTF-8 validity
check (no overlongs, no surrogates, at most `U+10FFFF`). -/
def utf8Valid : List ℕ → Bool
  | [] => true
  | b :: rest =>
    if b ≤ 0x7F then utf8Valid rest
    else if 0xC2 ≤ b && b ≤ 0xDF then
      match rest with
      | c1 :: r => utf8Cont c1 && utf8Valid r
      | [] => false
    else if b == 0xE0 then
      match rest with
      | c1 :: c2 :: r => (0xA0 ≤ c1 && c1 ≤ 0xBF) && utf8Cont c2 && utf8Valid r
      | _ => false
    else if b == 0xED then
      match rest with
      | c1 :: c2 :: r => (0x80 ≤ c1 && c1 ≤ 0x9F) && utf8Cont c2 && utf8Valid r
      | _ => false
    else if 0xE1 ≤ b && b ≤ 0xEF then
      match rest with
      | c1 :: c2 :: r => utf8Cont c1 && utf8Cont c2 && utf8Valid r
      | _ => false
    else if b == 0xF0 then
      match rest with
      | c1 :: c2 :: c3 :: r => (0x90 ≤ c1 && c1 ≤ 0xBF) && utf8Cont c2 && utf8Cont c3 && utf8Valid r
      | _ => false
    else if 0xF1 ≤ b && b ≤ 0xF3 then
      match rest with
      | c1 :: c2 :: c3 :: r => utf8Cont c1 && utf8Cont c2 && utf8Cont c3 && utf8Valid r
      | _ => false
    else if b == 0xF4 then
      match rest with
      | c1 :: c2 :: c3 :: r => (0x80 ≤ c1 && c1 ≤ 0x8F) && utf8Cont c2 && utf8Cont c3 && utf8Valid r
      | _ => false
    else false

/-- Python `bytes.decode("cp1252")` succeeding: every byte is defined in the
code page (`0x81, 0x8D, 0x8F, 0x90, 0x9D` are not). -/
def cp1252Valid (bytes : List ℕ) : Bool :=
  bytes.all (fun b => !([0x81, 0x8D, 0x8F, 0x90, 0x9D].contains b))

/-- Python `bytes.decode("latin-1")` succeeding: Latin-1 is a total,
single-byte decoding, so it never fails. -/
def latin1Valid (_ : List ℕ) : Bool :=
  true

/-- Python `bytes.decode("utf-16le")` succeeding: even length and properly
paired surrogates. -/
def utf16leValid : List ℕ → Bool
  | [] => true
  | [_] => false
  | b0 :: b1 :: rest =>
    let u := b0 + 256 * b1
    if 0xD800 ≤ u && u ≤ 0xDBFF then
      match rest with
      | b2 :: b3 :: r =>
        let v := b2 + 256 * b3
        (0xDC00 ≤ v && v ≤ 0xDFFF) && utf16leValid r
      | _ => false
    else if 0xDC00 ≤ u && u ≤ 0xDFFF then false
    else utf16leValid rest

/-- Python `bytes.decode("utf-16be")` succeeding. -/
def utf16beValid : List ℕ → Bool
  | [] => true
  | [_] => false
  | b0 :: b1 :: rest =>
    let u := 256 * b0 + b1
    if 0xD800 ≤ u && u ≤ 0xDBFF then
      match rest with
      | b2 :: b3 :: r =>
        let v := 256 * b2 + b3
        (0xDC00 ≤ v && v ≤ 0xDFFF) && utf16beValid r
      | _ => false
    else if 0xDC00 ≤ u && u ≤ 0xDFFF then false
    else utf16beValid rest

/-- Python `bytes.decode("utf-16")` succeeding: honour a leading BOM, default
to little-endian without one. -/
def utf16Valid (bytes : List ℕ) : Bool :=
  if bytesStartWith [0xFF, 0xFE] bytes then utf16leValid (bytes.drop 2)
  else if bytesStartWith [0xFE, 0xFF] bytes then utf16beValid (bytes.drop 2)
  else utf16leValid bytes

/-- The ordered candidate list of `_detect_encoding`, paired with the success
predicate of each codec's decode. -/
def candidateList : List (String × (List ℕ → Bool)) :=
  [("utf-8", utf8Valid), ("cp1252", cp1252Valid), ("latin-1", latin1Valid),
   ("utf-16", utf16Valid), ("utf-16le", utf16leValid), ("utf-16be", utf16beValid)]

/-- The `for enc in candidates: try sample.decode(enc) ...` loop: the first
candidate that decodes the sample. -/
def tryCandidates : List (String × (List ℕ → Bool)) → List ℕ → Option String
  | [], _ => none
  | (nm, valid) :: rest, sample =>
    if valid sample then some nm else tryCandidates rest sample

/-- `_detect_encoding` on the file's bytes: match BOM signatures against the
first 8 bytes (the UTF-32 check in the source has an empty body, so a
`FF FE 00 00` prefix falls through to the UTF-16LE branch), then try the
candidates on a 64 KiB sample; the final `latin-1, False` return is the
fall-through when no candidate succeeds. -/
def detect_encoding (bytes : List ℕ) : String × Bool :=
  let head := bytes.take 8
  if bytesStartWith [0xEF, 0xBB, 0xBF] head then ("utf-8-sig", true)
  else if bytesStartWith [0xFF, 0xFE] head then ("utf-16le", true)
  else if bytesStartWith [0xFE, 0xFF] head then ("utf-16be", true)
  else
    let sample := bytes.take 65536
    match tryCandidates candidateList sample with
    | some enc => (enc, false)
    | none => ("latin-1", false)

/-- Whether Python can decode `bytes` as `enc`, per the candidate table. -/
def encodingValid (enc : String) (bytes : List ℕ) : Bool :=
  match candidateList.find? (fun p => p.1 == enc) with
  | some p => p.2 bytes
  | none => false

/-- The digit-run value function, with an explicit accumulator. -/
def valFrom (a : ℕ) (cs : List Char) : ℕ :=
  cs.foldl (fun x c => 10 * x + (c.toNat - 48)) a

/-- What the dedup loop emits for one token, as a function of how many times
that token occurred before it. -/
def renderDedupe (h : String) (n : ℕ) : String :=
  if n = 0 then h else h ++ natDec n

/-- Reference form of the dedup loop: the emitted token depends only on the
count of earlier occurrences (`pre` is the list of already-scanned tokens). -/
def dedupeIdx (pre : List String) : List String → List String
  | [] => []
  | h :: rest => renderDedupe h (pre.count h) :: dedupeIdx (pre ++ [h]) rest

/-- Whether the last character of a string is a decimal digit. -/
def lastIsDigit (s : String) : Bool :=
  (s.data.getLast?.map Char.isDigit).getD false

/-- The overwrite applied by the second and later occurrences of a sku:
`lastWrite recs k` is the last record of `recs` carrying sku `k`. -/
def lastWrite (recs : List Record) (k : String) : Option Record :=
  match recs with
  | [] => none
  | r :: rs =>
    match lastWrite rs k with
    | some r' => some r'
    | none => if r.sku = k then some r else none

/-- The records of the accepted rows, in file order. -/
def acceptedRecords (hdrsNorm : List String) (tmap : Target → Option ℕ)
    (rows : List (List String)) : List Record :=
  rows.filterMap (fun row => if rowRejected hdrsNorm tmap row then none
    else some (rowRecord hdrsNorm tmap row))

/-- The diagnostics the row loop records, entered with line counter `ln`. -/
def diagsFrom (hdrsNorm : List String) (tmap : Target → Option ℕ) :
    ℕ → List (List String) → List String
  | _, [] => []
  | ln, row :: rest =>
    if rowRejected hdrsNorm tmap row then
      skipMsg (ln + 1) :: diagsFrom hdrsNorm tmap (ln + 1) rest
    else diagsFrom hdrsNorm tmap (ln + 1) rest

/-- Consistency of a flush trace with the sticky `have_upsert` flag: starting
with the flag `b`, the events `Δ` can occur and leave the flag `b2`.  The
atomic form is only attempted while the flag is up, and the flag never comes
back up once cleared. -/
inductive TraceSeq : Bool → List FlushEvent → Bool → Prop
  | nil (b : Bool) : TraceSeq b [] b
  | atomicOk {Δ : List FlushEvent} {b2 : Bool} :
      TraceSeq true Δ b2 → TraceSeq true (.atomicOk :: Δ) b2
  | fallback {Δ : List FlushEvent} {b2 : Bool} :
      TraceSeq false Δ b2 → TraceSeq true (.fallback :: Δ) b2
  | perRecord {Δ : List FlushEvent} {b2 : Bool} :
      TraceSeq false Δ b2 → TraceSeq false (.perRecord :: Δ) b2

/-- A batch of 501 one-sku rows: enough for one full mid-stream flush of 500
records plus a trailing flush. -/
def rows501 : List (List String) := List.replicate 501 ["a", "x"]

/-- A store that rejects the atomic upsert form on the first flush and then
behaves normally. -/
def rejectFirstEnv : ℕ → StoreResp := fun n => if n == 0 then .rejectAtomic else .ok

/-- 1001 one-sku rows: three flushes (two mid-stream at the 500 boundaries,
one trailing for the remainder). -/
def rows1001 : List (List String) := List.replicate 1001 ["a", "x"]

/-- A store whose second flush attempt fails fatally and which otherwise
behaves normally: one batch lands, then a mid-stream flush dies, then the
store recovers. -/
def failSecondEnv : ℕ → StoreResp := fun n => if n == 1 then .fatalStore else .ok

theorem valFrom_append (a : ℕ) (xs ys : List Char) :
    valFrom a (xs ++ ys) = valFrom (valFrom a xs) ys := by
  simp [valFrom, List.foldl_append]

theorem digitsToNat_eq_valFrom (cs : List Char) : digitsToNat cs = valFrom 0 cs := rfl

theorem digitChar_toNat {n : ℕ} (h : n < 10) : (digitChar n).toNat = 48 + n := by
  interval_cases n <;> rfl

theorem digitChar_isDigit {n : ℕ} (h : n < 10) : (digitChar n).isDigit = true := by
  interval_cases n <;> rfl

theorem natDecCore_acc (fuel n : ℕ) (acc : List Char) :
    natDecCore fuel n acc = natDecCore fuel n [] ++ acc := by
  induction fuel generalizing n acc with
  | zero => simp [natDecCore]
  | succ fuel ih =>
    by_cases h : n < 10
    · simp [natDecCore, h]
    · rw [natDecCore, natDecCore, if_neg h, if_neg h, ih (n / 10) (digitChar (n % 10) :: acc),
        ih (n / 10) [digitChar (n % 10)], List.append_assoc]
      rfl

theorem natDecCore_length (fuel n : ℕ) (acc : List Char) :
    acc.length < (natDecCore (fuel + 1) n acc).length := by
  induction fuel generalizing n acc with
  | zero =>
    by_cases h : n < 10 <;> simp [natDecCore, h]
  | succ fuel ih =>
    by_cases h : n < 10
    · simp [natDecCore, h]
    · rw [natDecCore, if_neg h]
      exact Nat.lt_trans (Nat.lt_succ_self _) (ih (n / 10) (digitChar (n % 10) :: acc))

theorem natDecCore_digits (fuel n : ℕ) (acc : List Char)
    (hacc : ∀ c ∈ acc, c.isDigit = true) :
    ∀ c ∈ natDecCore fuel n acc, c.isDigit = true := by
  induction fuel generalizing n acc with
  | zero => simpa [natDecCore] using hacc
  | succ fuel ih =>
    intro c hc
    by_cases h : n < 10
    · rw [natDecCore, if_pos h] at hc
      rcases List.mem_cons.mp hc with h1 | h1
      · subst h1; exact digitChar_isDigit (Nat.mod_lt _ (by norm_num))
      · exact hacc c h1
    · rw [natDecCore, if_neg h] at hc
      refine ih (n / 10) _ ?_ c hc
      intro d hd
      rcases List.mem_cons.mp hd with h1 | h1
      · subst h1; exact digitChar_isDigit (Nat.mod_lt _ (by norm_num))
      · exact hacc d h1

theorem valFrom_natDecCore (fuel : ℕ) :
    ∀ n, n < 10 ^ fuel → valFrom 0 (natDecCore fuel n []) = n := by
  induction fuel with
  | zero =>
    intro n hn
    have h0 : n = 0 := by omega
    subst h0; rfl
  | succ fuel ih =>
    intro n hn
    by_cases h : n < 10
    · rw [natDecCore, if_pos h]
      simp [valFrom, digitChar_toNat (Nat.mod_lt _ (by norm_num) : n % 10 < 10)]
      omega
    · rw [natDecCore, if_neg h, natDecCore_acc, valFrom_append,
        ih (n / 10) (Nat.div_lt_of_lt_mul (by rw [pow_succ] at hn; omega))]
      simp [valFrom, digitChar_toNat (Nat.mod_lt _ (by norm_num) : n % 10 < 10)]
      omega

theorem valFrom_natDec (n : ℕ) : valFrom 0 (natDec n).data = n := by
  have h : n < 10 ^ (n + 1) :=
    Nat.lt_of_lt_of_le (Nat.lt_two_pow n)
      (Nat.le_trans (Nat.pow_le_pow_left (by norm_num) n)
        (Nat.pow_le_pow_right (by norm_num) (Nat.le_succ n)))
  exact valFrom_natDecCore (n + 1) n h

theorem natDec_inj {m n : ℕ} (h : natDec m = natDec n) : m = n := by
  have := congrArg (fun s => valFrom 0 s.data) h
  simpa [valFrom_natDec] using this

theorem natDec_ne_empty (n : ℕ) : (natDec n).data ≠ [] := by
  have := natDecCore_length n n []
  intro h
  rw [show (natDec n).data = natDecCore (n + 1) n [] from rfl] at h
  simp [h] at this

theorem natDec_digits (n : ℕ) : ∀ c ∈ (natDec n).data, c.isDigit = true :=
  natDecCore_digits (n + 1) n [] (by intro c hc; cases hc)

theorem dedupeHeadersGo_eq_dedupeIdx (l : List String) :
    ∀ (seen : String → Option ℕ) (pre : List String),
      (∀ b, seen b = if pre.count b = 0 then none else some (pre.count b - 1)) →
      dedupeHeadersGo seen l = dedupeIdx pre l := by
  induction l with
  | nil => intro seen pre _; rfl
  | cons h rest ih =>
    intro seen pre hinv
    have hseen := hinv h
    rcases hc : pre.count h with _ | k
    · rw [hc, if_pos rfl] at hseen
      rw [dedupeHeadersGo, hseen, dedupeIdx, renderDedupe, if_pos hc]
      show h :: dedupeHeadersGo (bumpSeen seen h 0) rest = h :: dedupeIdx (pre ++ [h]) rest
      congr 1
      refine ih _ _ ?_
      intro b
      by_cases hb : b = h
      · subst hb
        simp [bumpSeen, List.count_append, hc]
      · simp [bumpSeen, hb, List.count_append, hinv b]
    · rw [hc, if_neg (by omega)] at hseen
      rw [dedupeHeadersGo, hseen, dedupeIdx, renderDedupe, if_neg (by omega), hc]
      show (h ++ natDec (k + 1)) :: dedupeHeadersGo (bumpSeen seen h (k + 1)) rest
          = (h ++ natDec (k + 1)) :: dedupeIdx (pre ++ [h]) rest
      congr 1
      refine ih _ _ ?_
      intro b
      by_cases hb : b = h
      · subst hb
        simp [bumpSeen, List.count_append, hc]
      · simp [bumpSeen, hb, List.count_append, hinv b]

theorem dedupe_headers_eq_dedupeIdx (l : List String) :
    dedupe_headers l = dedupeIdx [] l := by
  refine dedupeHeadersGo_eq_dedupeIdx l _ [] ?_
  intro b; simp

theorem dedupeIdx_length (l : List String) : ∀ pre, (dedupeIdx pre l).length = l.length := by
  induction l with
  | nil => intro pre; rfl
  | cons h rest ih => intro pre; simp [dedupeIdx, ih]

theorem dedupeIdx_getD (l : List String) :
    ∀ pre i, i < l.length →
      (dedupeIdx pre l).getD i "" =
        renderDedupe (l.getD i "") ((pre ++ l.take i).count (l.getD i "")) := by
  induction l with
  | nil => intro pre i hi; simp at hi
  | cons h rest ih =>
    intro pre i hi
    cases i with
    | zero => simp [dedupeIdx]
    | succ i =>
      have hi' : i < rest.length := by simpa using hi
      have := ih (pre ++ [h]) i hi'
      simpa [dedupeIdx, List.append_assoc] using this

theorem dedupe_headers_getD (l : List String) (i : ℕ) (hi : i < l.length) :
    (dedupe_headers l).getD i "" =
      renderDedupe (l.getD i "") ((l.take i).count (l.getD i "")) := by
  rw [dedupe_headers_eq_dedupeIdx]
  simpa using dedupeIdx_getD l [] i hi

theorem string_eq_of_data {s t : String} (h : s.data = t.data) : s = t := by
  cases s; cases t; exact congrArg String.mk h

theorem lastIsDigit_append_of_digits (xs d : List Char) (hne : d ≠ [])
    (hd : ∀ c ∈ d, c.isDigit = true) : lastIsDigit ⟨xs ++ d⟩ = true := by
  rcases (List.eq_nil_or_concat d) with h | ⟨d', a, rfl⟩
  · exact absurd h hne
  · unfold lastIsDigit
    show (Option.map Char.isDigit ((xs ++ d'.concat a).getLast?)).getD false = true
    rw [List.concat_eq_append, ← List.append_assoc, List.getLast?_concat]
    have ha : a ∈ d'.concat a := by simp
    simp [hd a ha]

theorem lastIsDigit_append_natDec (s : String) (n : ℕ) :
    lastIsDigit (s ++ natDec n) = true := by
  have : s ++ natDec n = ⟨s.data ++ (natDec n).data⟩ := rfl
  rw [this]
  exact lastIsDigit_append_of_digits s.data (natDec n).data (natDec_ne_empty n) (natDec_digits n)

theorem count_take_le_count_take (l : List String) (a : String) {i j : ℕ} (hij : i ≤ j) :
    (l.take i).count a ≤ (l.take j).count a := by
  rw [show j = i + (j - i) from by omega, List.take_add l i (j - i), List.count_append]
  exact Nat.le_add_right _ _

theorem count_take_lt_count_take (l : List String) {i j : ℕ} (hij : i < j) (hi : i < l.length) :
    (l.take i).count (l.getD i "") < (l.take j).count (l.getD i "") := by
  have h1 : (l.take (i + 1)).count (l.getD i "") = (l.take i).count (l.getD i "") + 1 := by
    rw [List.take_succ, List.getElem?_eq_getElem hi, List.count_append,
      List.getD_eq_getElem l "" hi]
    simp
  have h2 := count_take_le_count_take l (l.getD i "") (show i + 1 ≤ j from hij)
  omega

theorem dedupe_getD_ne (l : List String) (hl : ∀ h ∈ l, lastIsDigit h = false)
    {i j : ℕ} (hij : i < j) (hj : j < l.length) :
    (dedupe_headers l).getD i "" ≠ (dedupe_headers l).getD j "" := by
  have hi : i < l.length := lt_trans hij hj
  rw [dedupe_headers_getD l i hi, dedupe_headers_getD l j hj]
  have hmi : l.getD i "" ∈ l := by
    rw [List.getD_eq_getElem l "" hi]; exact List.getElem_mem hi
  have hmj : l.getD j "" ∈ l := by
    rw [List.getD_eq_getElem l "" hj]; exact List.getElem_mem hj
  intro heq
  by_cases hci : (l.take i).count (l.getD i "") = 0 <;>
    by_cases hcj : (l.take j).count (l.getD j "") = 0
  · rw [renderDedupe, if_pos hci, renderDedupe, if_pos hcj] at heq
    have := count_take_lt_count_take l hij hi
    rw [← heq] at hcj
    omega
  · rw [renderDedupe, if_pos hci, renderDedupe, if_neg hcj] at heq
    have : lastIsDigit (l.getD i "") = true := by
      rw [heq]; exact lastIsDigit_append_natDec _ _
    rw [hl _ hmi] at this; cases this
  · rw [renderDedupe, if_neg hci, renderDedupe, if_pos hcj] at heq
    have : lastIsDigit (l.getD j "") = true := by
      rw [← heq]; exact lastIsDigit_append_natDec _ _
    rw [hl _ hmj] at this; cases this
  · rw [renderDedupe, if_neg hci, renderDedupe, if_neg hcj] at heq
    have hdata : (l.getD i "").data ++ (natDec ((l.take i).count (l.getD i ""))).data
        = (l.getD j "").data ++ (natDec ((l.take j).count (l.getD j ""))).data :=
      congrArg String.data heq
    rcases List.append_eq_append_iff.mp hdata with ⟨a', ha1, ha2⟩ | ⟨c', hc1, hc2⟩
    · by_cases ha : a' = []
      · subst ha
        have hstr : l.getD j "" = l.getD i "" := string_eq_of_data (by simpa using ha1)
        have hnum : natDec ((l.take i).count (l.getD i ""))
            = natDec ((l.take j).count (l.getD j "")) :=
          string_eq_of_data (by simpa using ha2)
        have hcount := natDec_inj hnum
        have := count_take_lt_count_take l hij hi
        rw [hstr] at hcount
        omega
      · have hdig : ∀ c ∈ a', c.isDigit = true := by
          intro c hc
          exact natDec_digits _ c (by rw [ha2]; exact List.mem_append_left _ hc)
        have : lastIsDigit (l.getD j "") = true := by
          rw [show l.getD j "" = (⟨(l.getD i "").data ++ a'⟩ : String) from
            string_eq_of_data (by simpa using ha1)]
          exact lastIsDigit_append_of_digits _ _ ha hdig
        rw [hl _ hmj] at this; cases this
    · by_cases hc : c' = []
      · subst hc
        have hstr : l.getD i "" = l.getD j "" := string_eq_of_data (by simpa using hc1)
        have hnum : natDec ((l.take j).count (l.getD j ""))
            = natDec ((l.take i).count (l.getD i "")) :=
          string_eq_of_data (by simpa using hc2)
        have hcount := natDec_inj hnum
        have := count_take_lt_count_take l hij hi
        rw [hstr] at this hcount
        omega
      · have hdig : ∀ c ∈ c', c.isDigit = true := by
          intro c hc
          exact natDec_digits _ c (by rw [hc2]; exact List.mem_append_left _ hc)
        have : lastIsDigit (l.getD i "") = true := by
          rw [show l.getD i "" = (⟨(l.getD j "").data ++ c'⟩ : String) from
            string_eq_of_data (by simpa using hc1)]
          exact lastIsDigit_append_of_digits _ _ hc hdig
        rw [hl _ hmi] at this; cases this

theorem dedupe_headers_length (l : List String) :
    (dedupe_headers l).length = l.length := by
  rw [dedupe_headers_eq_dedupeIdx]; exact dedupeIdx_length l []

theorem dedupe_headers_nodup (l : List String)
    (hl : ∀ h ∈ l, lastIsDigit h = false) : (dedupe_headers l).Nodup := by
  rw [List.nodup_iff_getElem?_ne_getElem?]
  intro i j hij hj
  have hj' : j < l.length := by rwa [dedupe_headers_length] at hj
  have hi' : i < (dedupe_headers l).length := by omega
  rw [List.getElem?_eq_getElem hi', List.getElem?_eq_getElem hj]
  intro heq
  apply dedupe_getD_ne l hl hij hj'
  rw [List.getD_eq_getElem _ "" hi', List.getD_eq_getElem _ "" hj]
  exact Option.some_injective _ heq

theorem findSynIdx_some_spec (keys : List String) :
    ∀ (l : List String) (i0 j : ℕ), findSynIdx keys l i0 = some j →
      i0 ≤ j ∧ j - i0 < l.length ∧ keys.contains (l.getD (j - i0) "") = true ∧
        ∀ m < j - i0, keys.contains (l.getD m "") = false := by
  intro l
  induction l with
  | nil => intro i0 j h; cases h
  | cons h rest ih =>
    intro i0 j hfind
    by_cases hc : keys.contains h = true
    · rw [findSynIdx, if_pos hc] at hfind
      have hj : j = i0 := (Option.some_injective _ hfind).symm
      subst hj
      refine ⟨le_refl _, by simp, by simpa using hc, ?_⟩
      intro m hm; omega
    · rw [findSynIdx, if_neg hc] at hfind
      obtain ⟨h1, h2, h3, h4⟩ := ih (i0 + 1) j hfind
      refine ⟨by omega, by simp; omega, ?_, ?_⟩
      · have : j - i0 = (j - (i0 + 1)) + 1 := by omega
        rw [this]
        simpa using h3
      · intro m hm
        cases m with
        | zero => simpa using eq_false_of_ne_true hc
        | succ m =>
          have : m < j - (i0 + 1) := by omega
          simpa using h4 m this

theorem findSynIdx_none_spec (keys : List String) :
    ∀ (l : List String) (i0 : ℕ), findSynIdx keys l i0 = none →
      ∀ m < l.length, keys.contains (l.getD m "") = false := by
  intro l
  induction l with
  | nil => intro i0 _ m hm; simp at hm
  | cons h rest ih =>
    intro i0 hfind m hm
    by_cases hc : keys.contains h = true
    · rw [findSynIdx, if_pos hc] at hfind; cases hfind
    · rw [findSynIdx, if_neg hc] at hfind
      cases m with
      | zero => simpa using eq_false_of_ne_true hc
      | succ m => simpa using ih (i0 + 1) hfind m (by simpa using hm)

theorem bytesStartWith_take (sig bytes : List ℕ) (n : ℕ) (hn : sig.length ≤ n) :
    bytesStartWith sig (bytes.take n) = bytesStartWith sig bytes := by
  induction sig generalizing bytes n with
  | nil => rfl
  | cons s ss ih =>
    cases bytes with
    | nil => simp
    | cons b bs =>
      cases n with
      | zero => simp at hn
      | succ n =>
        rw [List.take_succ_cons]
        show (s == b && bytesStartWith ss (bs.take n)) = (s == b && bytesStartWith ss bs)
        rw [ih bs n (by simpa using hn)]

theorem bytesStartWith_cons_iff (s : ℕ) (ss l : List ℕ) :
    bytesStartWith (s :: ss) l = true ↔ ∃ t, l = s :: t ∧ bytesStartWith ss t = true := by
  cases l with
  | nil => simp [bytesStartWith]
  | cons b bs =>
    show (s == b && bytesStartWith ss bs) = true ↔ _
    constructor
    · intro h
      rcases Bool.and_eq_true_iff.mp h with ⟨h1, h2⟩
      exact ⟨bs, by rw [show s = b from by simpa using h1], h2⟩
    · rintro ⟨t, ht, h2⟩
      injection ht with h3 h4
      subst h3; subst h4
      simp [h2]

/-- C8: for every normalized header sequence and each canonical target field,
`_build_header_map` assigns at most one column index — the leftmost column
whose normalized header lies in the field's synonym set — and leaves the
field absent when no column's normalized header is in the synonym set. -/
theorem claim_c8_header_map_leftmost (hdrs : List String) (t : Target) :
    (∀ j, build_header_map hdrs t = some j →
      j < hdrs.length ∧ (synonyms t).contains (hdrs.getD j "") = true ∧
        ∀ m < j, (synonyms t).contains (hdrs.getD m "") = false) ∧
    (build_header_map hdrs t = none →
      ∀ m < hdrs.length, (synonyms t).contains (hdrs.getD m "") = false) := by
  constructor
  · intro j hj
    obtain ⟨_, h2, h3, h4⟩ := findSynIdx_some_spec (synonyms t) hdrs 0 j hj
    exact ⟨by simpa using h2, by simpa using h3, by simpa using h4⟩
  · intro hnone
    exact findSynIdx_none_spec (synonyms t) hdrs 0 hnone

/-- Witness for C8 on the header `["qty", "sku", "stock"]`: the stock field
maps to the leftmost matching column 0 and not to column 2, and the
description field is absent. -/
theorem claim_c8_header_map_leftmost_witness :
    (0 < (["qty", "sku", "stock"] : List String).length ∧
      (synonyms .stock).contains ((["qty", "sku", "stock"] : List String).getD 0 "") = true) ∧
    (∀ m < (["qty", "sku", "stock"] : List String).length,
      (synonyms .description).contains ((["qty", "sku", "stock"] : List String).getD m "") = false) := by
  constructor
  · obtain ⟨h1, h2, _⟩ :=
      (claim_c8_header_map_leftmost ["qty", "sku", "stock"] .stock).1 0 (by decide)
    exact ⟨h1, h2⟩
  · exact (claim_c8_header_map_leftmost ["qty", "sku", "stock"] .description).2 (by decide)

/-- C9: a leading UTF-8 / UTF-16LE / UTF-16BE byte-order mark makes
`_detect_encoding` return the matching codec with the BOM flag set, and on
any input without one of those signatures the detector reports no BOM and
returns an encoding under which the 64 KiB sample decodes without error
(Latin-1 being total, the candidate loop always returns). -/
theorem claim_c9_encoding_detection (bytes : List ℕ) :
    (bytesStartWith [0xEF, 0xBB, 0xBF] bytes = true →
      detect_encoding bytes = ("utf-8-sig", true)) ∧
    (bytesStartWith [0xFF, 0xFE] bytes = true →
      detect_encoding bytes = ("utf-16le", true)) ∧
    (bytesStartWith [0xFE, 0xFF] bytes = true →
      detect_encoding bytes = ("utf-16be", true)) ∧
    (bytesStartWith [0xEF, 0xBB, 0xBF] bytes = false →
      bytesStartWith [0xFF, 0xFE] bytes = false →
      bytesStartWith [0xFE, 0xFF] bytes = false →
      (detect_encoding bytes).2 = false ∧
        encodingValid (detect_encoding bytes).1 (bytes.take 65536) = true) := by
  refine ⟨?_, ?_, ?_, ?_⟩
  · intro h
    obtain ⟨t1, rfl, ha⟩ := (bytesStartWith_cons_iff _ _ _).mp h
    obtain ⟨t2, rfl, hb⟩ := (bytesStartWith_cons_iff _ _ _).mp ha
    obtain ⟨t3, rfl, -⟩ := (bytesStartWith_cons_iff _ _ _).mp hb
    simp [detect_encoding, bytesStartWith]
  · intro h
    obtain ⟨t1, rfl, ha⟩ := (bytesStartWith_cons_iff _ _ _).mp h
    obtain ⟨t2, rfl, -⟩ := (bytesStartWith_cons_iff _ _ _).mp ha
    simp [detect_encoding, bytesStartWith]
  · intro h
    obtain ⟨t1, rfl, ha⟩ := (bytesStartWith_cons_iff _ _ _).mp h
    obtain ⟨t2, rfl, -⟩ := (bytesStartWith_cons_iff _ _ _).mp ha
    simp [detect_encoding, bytesStartWith]
  · intro h1 h2 h3
    have h1' : bytesStartWith [0xEF, 0xBB, 0xBF] (bytes.take 8) = false := by
      rw [bytesStartWith_take _ _ _ (by norm_num)]; exact h1
    have h2' : bytesStartWith [0xFF, 0xFE] (bytes.take 8) = false := by
      rw [bytesStartWith_take _ _ _ (by norm_num)]; exact h2
    have h3' : bytesStartWith [0xFE, 0xFF] (bytes.take 8) = false := by
      rw [bytesStartWith_take _ _ _ (by norm_num)]; exact h3
    cases hu : utf8Valid (bytes.take 65536) with
    | true =>
      have hd : detect_encoding bytes = ("utf-8", false) := by
        simp [detect_encoding, h1', h2', h3', tryCandidates, candidateList, hu]
      rw [hd]
      exact ⟨rfl, by show utf8Valid _ = true; exact hu⟩
    | false =>
      cases hc : cp1252Valid (bytes.take 65536) with
      | true =>
        have hd : detect_encoding bytes = ("cp1252", false) := by
          simp [detect_encoding, h1', h2', h3', tryCandidates, candidateList, hu, hc]
        rw [hd]
        exact ⟨rfl, by show cp1252Valid _ = true; exact hc⟩
      | false =>
        have hd : detect_encoding bytes = ("latin-1", false) := by
          simp [detect_encoding, h1', h2', h3', tryCandidates, candidateList, hu, hc, latin1Valid]
        rw [hd]
        exact ⟨rfl, rfl⟩

/-- Witness for C9 at the four concrete inputs `EF BB BF 61`, `FF FE`,
`FE FF`, and the signature-free `61 62`. -/
theorem claim_c9_encoding_detection_witness :
    detect_encoding [0xEF, 0xBB, 0xBF, 0x61] = ("utf-8-sig", true) ∧
    detect_encoding [0xFF, 0xFE] = ("utf-16le", true) ∧
    detect_encoding [0xFE, 0xFF] = ("utf-16be", true) ∧
    ((detect_encoding [0x61, 0x62]).2 = false ∧
      encodingValid (detect_encoding [0x61, 0x62]).1 ([0x61, 0x62].take 65536) = true) :=
  ⟨(claim_c9_encoding_detection [0xEF, 0xBB, 0xBF, 0x61]).1 (by decide),
   (claim_c9_encoding_detection [0xFF, 0xFE]).2.1 (by decide),
   (claim_c9_encoding_detection [0xFE, 0xFF]).2.2.1 (by decide),
   (claim_c9_encoding_detection [0x61, 0x62]).2.2.2 (by decide) (by decide) (by decide)⟩

/-- C3 counterexample: on the raw header row `["name", "name1", "name"]` the
deduplicated normalized headers are `["name", "name1", "name1"]` — the suffix
attached to the repeated `"name"` collides with the distinct header
`"name1"`, so the output does contain duplicate values. -/
theorem claim_c3_counterexample :
    dedupe_headers (["name", "name1", "name"].map normalize_header)
      = ["name", "name1", "name1"] ∧
    ¬ (dedupe_headers (["name", "name1", "name"].map normalize_header)).Nodup := by
  constructor
  · decide
  · decide

/-- C3 amended: provided no normalized header token ends in a decimal digit,
the deduplicated sequence contains no duplicate values; unconditionally the
output has one entry per input column in the same left-to-right order, and
every first occurrence keeps its original form at its original position. -/
theorem claim_c3_dedupe_nodup_amended (raw : List String)
    (hnd : ∀ h ∈ raw.map normalize_header, lastIsDigit h = false) :
    (dedupe_headers (raw.map normalize_header)).Nodup ∧
    (dedupe_headers (raw.map normalize_header)).length = (raw.map normalize_header).length ∧
    (∀ i, i < (raw.map normalize_header).length →
      ((raw.map normalize_header).take i).count ((raw.map normalize_header).getD i "") = 0 →
      (dedupe_headers (raw.map normalize_header)).getD i ""
        = (raw.map normalize_header).getD i "") := by
  refine ⟨dedupe_headers_nodup _ hnd, dedupe_headers_length _, ?_⟩
  intro i hi h0
  rw [dedupe_headers_getD _ i hi, renderDedupe, if_pos h0]

/-- Witness for C3 (amended) on the raw row `["Name", "name", "x"]`, whose
normalized tokens are `["name", "name", "x"]`. -/
theorem claim_c3_dedupe_nodup_amended_witness :
    (dedupe_headers (["Name", "name", "x"].map normalize_header)).Nodup ∧
    (dedupe_headers (["Name", "name", "x"].map normalize_header)).getD 0 "" = "name" := by
  obtain ⟨h1, -, h3⟩ := claim_c3_dedupe_nodup_amended ["Name", "name", "x"] (by decide)
  exact ⟨h1, (h3 0 (by decide) (by decide)).trans (by decide)⟩

/-- C4 counterexample: the dedup loop records count 0 at the first occurrence
and appends the incremented count to later ones, so the suffixes start at 1,
not 2: `["name", "name"]` becomes `["name", "name1"]`, not
`["name", "name2"]`. -/
theorem claim_c4_counterexample :
    dedupe_headers ["name", "name"] = ["name", "name1"] ∧
    dedupe_headers ["name", "name"] ≠ ["name", "name2"] := by
  constructor
  · decide
  · decide

/-- C4 amended: deduplication keeps the first occurrence of a token
unchanged and appends the incrementing numeric suffix 1, 2, … to the second,
third, … occurrences of that same token (the suffix is the number of earlier
occurrences); in particular `["name", "name"]` produces
`["name", "name1"]`. -/
theorem claim_c4_suffix_amended (headers : List String) :
    (dedupe_headers headers).length = headers.length ∧
    (∀ i, i < headers.length →
      (dedupe_headers headers).getD i "" =
        (if (headers.take i).count (headers.getD i "") = 0 then headers.getD i ""
         else headers.getD i "" ++ natDec ((headers.take i).count (headers.getD i "")))) ∧
    dedupe_headers ["name", "name"] = ["name", "name1"] := by
  refine ⟨dedupe_headers_length _, ?_, by decide⟩
  intro i hi
  rw [dedupe_headers_getD _ i hi, renderDedupe]

/-- Witness for C4 (amended) at `["name", "name"]`, index 1: the second
occurrence receives the suffix 1. -/
theorem claim_c4_suffix_amended_witness :
    (dedupe_headers ["name", "name"]).getD 1 "" =
      (if ((["name", "name"] : List String).take 1).count
            ((["name", "name"] : List String).getD 1 "") = 0
       then (["name", "name"] : List String).getD 1 ""
       else (["name", "name"] : List String).getD 1 ""
         ++ natDec (((["name", "name"] : List String).take 1).count
              ((["name", "name"] : List String).getD 1 ""))) :=
  (claim_c4_suffix_amended ["name", "name"]).2.1 1 (by decide)

/-- C7: `_to_float` sends blank input and the trimmed, case-folded sentinels
to zero; every other input has the currency symbols and commas stripped and
the remainder parsed, with parse failure defaulting to zero; in particular
`"N/A"` gives 0, `"$1,234.50"` gives 1234.50 and `"abc"` gives 0.  (Python
`float` is abstracted to exact rationals over plain decimal literals.) -/
theorem claim_c7_price_coercion :
    (∀ s : String, (pyStrip s == "" || sentinels.contains (pyLower (pyStrip s))) = true →
      to_float s = 0) ∧
    (∀ s : String, (pyStrip s == "" || sentinels.contains (pyLower (pyStrip s))) = false →
      to_float s = (parseFloat (removeChar ',' (removeChar '£' (removeChar '€'
        (removeChar '$' (pyStrip s)))))).getD 0) ∧
    to_float "N/A" = 0 ∧ to_float "$1,234.50" = (1234.5 : ℚ) ∧ to_float "abc" = 0 := by
  refine ⟨?_, ?_, rfl, ?_, rfl⟩
  · intro s h
    simp only [to_float, h, if_true]
  · intro s h
    simp only [to_float, h, Bool.false_eq_true, if_false]
    cases parseFloat (removeChar ',' (removeChar '£' (removeChar '€'
      (removeChar '$' (pyStrip s))))) <;> rfl
  · have h0 : to_float "$1,234.50" = ((1234 : ℕ) : ℚ) + ((50 : ℕ) : ℚ) / (10 : ℚ) ^ (2 : ℕ) := rfl
    rw [h0]
    norm_num

/-- Witness for C7: the sentinel branch at `" N/A "` and the parse branch at
`"1.5"`. -/
theorem claim_c7_price_coercion_witness :
    to_float " N/A " = 0 ∧
    to_float "1.5" = (parseFloat (removeChar ',' (removeChar '£' (removeChar '€'
      (removeChar '$' (pyStrip "1.5")))))).getD 0 :=
  ⟨claim_c7_price_coercion.1 " N/A " (by decide),
   claim_c7_price_coercion.2.1 "1.5" (by decide)⟩

theorem lookupSku_cons (x : Record) (S : Store) (k : String) :
    lookupSku (x :: S) k = if x.sku == k then some x else lookupSku S k := by
  unfold lookupSku
  cases h : (x.sku == k) <;> simp [List.find?, h]

theorem beq_eq_false_of_ne {a b : String} (h : a ≠ b) : (a == b) = false := by
  cases hab : (a == b) with
  | false => rfl
  | true => exact absurd (by simpa using hab) h

theorem overwriteRow_self {x r : Record} (h : x.sku = r.sku) : overwriteRow x r = r := by
  cases r
  simp only [overwriteRow] at h ⊢
  rw [h]

theorem upsertManual_eq_upsertConflict (db : Store) (r : Record) :
    upsertManual db r = upsertConflict db r := by
  unfold upsertManual upsertConflict lookupSku
  cases hf : db.find? (fun x => x.sku == r.sku) with
  | some x =>
    have hmem := List.mem_of_find?_eq_some hf
    have hpred := List.find?_some hf
    have hany : db.any (fun x => x.sku == r.sku) = true :=
      List.any_eq_true.mpr ⟨x, hmem, hpred⟩
    rw [if_pos hany]
  | none =>
    have hany : ¬ db.any (fun x => x.sku == r.sku) = true := by
      rw [List.any_eq_true]
      rintro ⟨x, hx, hpx⟩
      exact absurd hpx (by simpa using List.find?_eq_none.mp hf x hx)
    rw [if_neg hany]

theorem lookupSku_map_overwrite (r : Record) (k : String) :
    ∀ db : Store,
      lookupSku (db.map (fun x => if x.sku == r.sku then overwriteRow x r else x)) k =
        (lookupSku db k).map (fun x => if x.sku == r.sku then overwriteRow x r else x) := by
  intro db
  induction db with
  | nil => rfl
  | cons y ys ih =>
    rw [List.map_cons, lookupSku_cons, lookupSku_cons]
    have hsku : (if y.sku == r.sku then overwriteRow y r else y).sku = y.sku := by
      cases h : (y.sku == r.sku) <;> simp [overwriteRow]
    rw [hsku]
    cases h : (y.sku == k) with
    | false => simpa [h] using ih
    | true => simp [h]

theorem lookupSku_append_single (r : Record) (k : String) :
    ∀ db : Store,
      lookupSku (db ++ [r]) k =
        match lookupSku db k with
        | some x => some x
        | none => if r.sku == k then some r else none := by
  intro db
  induction db with
  | nil =>
    show lookupSku [r] k = _
    rw [lookupSku_cons]
    cases h : (r.sku == k) <;> simp [h, lookupSku]
  | cons y ys ih =>
    rw [List.cons_append, lookupSku_cons, lookupSku_cons]
    cases h : (y.sku == k) <;> simp [ih]

theorem lookup_eq_none_iff (db : Store) (k : String) :
    lookupSku db k = none ↔ k ∉ skusOf db := by
  unfold lookupSku skusOf
  rw [List.find?_eq_none]
  constructor
  · intro h hk
    obtain ⟨x, hx, hxk⟩ := List.mem_map.mp hk
    exact h x hx (by simp [hxk])
  · intro h x hx
    intro hpx
    exact h (List.mem_map.mpr ⟨x, hx, by simpa using hpx⟩)

theorem mem_skusOf_of_lookup_some {db : Store} {k : String} {r : Record}
    (h : lookupSku db k = some r) : k ∈ skusOf db := by
  have h' : List.find? (fun x => x.sku == k) db = some r := h
  have hmem := List.mem_of_find?_eq_some h'
  have hpred := List.find?_some h'
  exact List.mem_map.mpr ⟨r, hmem, by simpa using hpred⟩

theorem lookupSku_upsertConflict (db : Store) (r : Record) (k : String) :
    lookupSku (upsertConflict db r) k = if k = r.sku then some r else lookupSku db k := by
  unfold upsertConflict
  by_cases hany : db.any (fun x => x.sku == r.sku) = true
  · rw [if_pos hany, lookupSku_map_overwrite]
    by_cases hk : k = r.sku
    · rw [if_pos hk]
      obtain ⟨x, hx, hpx⟩ := List.any_eq_true.mp hany
      have hsome : ∃ y, lookupSku db k = some y := by
        cases hl : lookupSku db k with
        | some y => exact ⟨y, rfl⟩
        | none =>
          refine absurd ?_ ((lookup_eq_none_iff db k).mp hl)
          exact List.mem_map.mpr ⟨x, hx, by rw [hk]; simpa using hpx⟩
      obtain ⟨y, hy⟩ := hsome
      have hy' : List.find? (fun x => x.sku == k) db = some y := hy
      have hysku : y.sku = k := by simpa using List.find?_some hy'
      rw [hy]
      simp only [Option.map_some']
      rw [show (if y.sku == r.sku then overwriteRow y r else y) = r from by
        rw [show (y.sku == r.sku) = true from by rw [hysku, hk]; simp]
        simpa using overwriteRow_self (by rw [hysku, hk])]
    · rw [if_neg hk]
      cases hl : lookupSku db k with
      | some y =>
        have hl' : List.find? (fun x => x.sku == k) db = some y := hl
        have hysku : y.sku = k := by simpa using List.find?_some hl'
        have hb : (y.sku == r.sku) = false :=
          beq_eq_false_of_ne (by rw [hysku]; exact hk)
        simp only [Option.map_some']
        rw [show (if y.sku == r.sku then overwriteRow y r else y) = y from by simp [hb]]
      | none => rfl
  · rw [if_neg hany, lookupSku_append_single]
    have hnone : lookupSku db r.sku = none := by
      rw [lookup_eq_none_iff]
      intro hm
      obtain ⟨x, hx, hxk⟩ := List.mem_map.mp hm
      exact hany (List.any_eq_true.mpr ⟨x, hx, by simpa using hxk⟩)
    by_cases hk : k = r.sku
    · rw [if_pos hk, hk, hnone]
      simp
    · rw [if_neg hk]
      cases hl : lookupSku db k with
      | some y => simp
      | none =>
        have hb : (r.sku == k) = false := beq_eq_false_of_ne (fun h => hk h.symm)
        simp [hb]

theorem skusOf_cons (x : Record) (S : Store) : skusOf (x :: S) = x.sku :: skusOf S := rfl

theorem skusOf_upsertConflict_of_mem (db : Store) (r : Record) (h : r.sku ∈ skusOf db) :
    skusOf (upsertConflict db r) = skusOf db := by
  unfold upsertConflict
  have hany : db.any (fun x => x.sku == r.sku) = true := by
    obtain ⟨x, hx, hxk⟩ := List.mem_map.mp h
    exact List.any_eq_true.mpr ⟨x, hx, by simpa using hxk⟩
  rw [if_pos hany]
  unfold skusOf
  rw [List.map_map]
  apply List.map_congr_left
  intro x _
  show (if x.sku == r.sku then overwriteRow x r else x).sku = x.sku
  cases h : (x.sku == r.sku) <;> simp [overwriteRow]

theorem skusOf_upsertConflict_of_not_mem (db : Store) (r : Record) (h : r.sku ∉ skusOf db) :
    skusOf (upsertConflict db r) = skusOf db ++ [r.sku] := by
  unfold upsertConflict
  have hany : ¬ db.any (fun x => x.sku == r.sku) = true := by
    rw [List.any_eq_true]
    rintro ⟨x, hx, hxk⟩
    exact h (List.mem_map.mpr ⟨x, hx, by simpa using hxk⟩)
  rw [if_neg hany]
  unfold skusOf
  rw [List.map_append]
  rfl

theorem nodup_skusOf_upsertConflict (db : Store) (r : Record)
    (h : (skusOf db).Nodup) : (skusOf (upsertConflict db r)).Nodup := by
  by_cases hm : r.sku ∈ skusOf db
  · rw [skusOf_upsertConflict_of_mem db r hm]; exact h
  · rw [skusOf_upsertConflict_of_not_mem db r hm]
    simp [List.nodup_append, h, hm]

theorem lookupSku_applyConflict (recs : List Record) : ∀ (db : Store) (k : String),
    lookupSku (applyConflict db recs) k =
      match lastWrite recs k with
      | some r => some r
      | none => lookupSku db k := by
  induction recs with
  | nil => intro db k; rfl
  | cons r rs ih =>
    intro db k
    show lookupSku (applyConflict (upsertConflict db r) rs) k = _
    rw [ih]
    cases hlw : lastWrite rs k with
    | some r' => simp [lastWrite, hlw]
    | none =>
      rw [lookupSku_upsertConflict]
      by_cases hk : k = r.sku
      · subst hk
        simp [lastWrite, hlw]
      · have hns : ¬ r.sku = k := fun h => hk h.symm
        simp [lastWrite, hlw, hk, hns]

theorem lastWrite_isSome_of_mem {recs : List Record} {r : Record} (h : r ∈ recs) :
    (lastWrite recs r.sku).isSome = true := by
  induction recs with
  | nil => cases h
  | cons x rs ih =>
    rcases List.mem_cons.mp h with h1 | h1
    · subst h1
      show (match lastWrite rs r.sku with
        | some r' => some r'
        | none => if r.sku = r.sku then some r else none).isSome = true
      cases lastWrite rs r.sku with
      | some r' => rfl
      | none => simp
    · have := ih h1
      show (match lastWrite rs r.sku with
        | some r' => some r'
        | none => if x.sku = r.sku then some x else none).isSome = true
      cases hlw : lastWrite rs r.sku with
      | some r' => rfl
      | none => rw [hlw] at this; cases this

theorem lastWrite_mem_sku {recs : List Record} {k : String} {r : Record}
    (h : lastWrite recs k = some r) : r ∈ recs ∧ r.sku = k := by
  induction recs with
  | nil => cases h
  | cons x rs ih =>
    rw [show lastWrite (x :: rs) k = (match lastWrite rs k with
      | some r' => some r'
      | none => if x.sku = k then some x else none) from rfl] at h
    cases hlw : lastWrite rs k with
    | some r' =>
      rw [hlw] at h
      obtain ⟨h1, h2⟩ := ih (hlw.trans h)
      exact ⟨List.mem_cons_of_mem _ h1, h2⟩
    | none =>
      rw [hlw] at h
      by_cases hx : x.sku = k
      · rw [if_pos hx] at h
        cases h
        exact ⟨List.mem_cons_self _ _, hx⟩
      · rw [if_neg hx] at h; cases h

theorem skusOf_applyConflict_of_mem (recs : List Record) : ∀ db : Store,
    (∀ r ∈ recs, r.sku ∈ skusOf db) → skusOf (applyConflict db recs) = skusOf db := by
  induction recs with
  | nil => intro db _; rfl
  | cons r rs ih =>
    intro db hmem
    show skusOf (applyConflict (upsertConflict db r) rs) = skusOf db
    have h1 : skusOf (upsertConflict db r) = skusOf db :=
      skusOf_upsertConflict_of_mem db r (hmem r (List.mem_cons_self _ _))
    rw [ih (upsertConflict db r) (by
      intro r' hr'
      rw [h1]
      exact hmem r' (List.mem_cons_of_mem _ hr')), h1]

theorem nodup_skusOf_applyConflict (recs : List Record) : ∀ db : Store,
    (skusOf db).Nodup → (skusOf (applyConflict db recs)).Nodup := by
  induction recs with
  | nil => intro db h; exact h
  | cons r rs ih =>
    intro db h
    exact ih (upsertConflict db r) (nodup_skusOf_upsertConflict db r h)

theorem store_ext : ∀ S T : Store, (skusOf S).Nodup → skusOf S = skusOf T →
    (∀ k, lookupSku S k = lookupSku T k) → S = T := by
  intro S
  induction S with
  | nil =>
    intro T _ hsk _
    cases T with
    | nil => rfl
    | cons y T' => exact absurd hsk (by simp [skusOf])
  | cons x S' ih =>
    intro T hnd hsk hlk
    cases T with
    | nil => exact absurd hsk (by simp [skusOf])
    | cons y T' =>
      have hsk' : x.sku :: skusOf S' = y.sku :: skusOf T' := hsk
      injection hsk' with h1 h2
      have hxy : x = y := by
        have hl := hlk x.sku
        rw [lookupSku_cons, lookupSku_cons] at hl
        rw [if_pos (by simp), if_pos (by simp [h1])] at hl
        exact Option.some_injective _ hl
      subst hxy
      have hnd' : (skusOf S').Nodup := by
        rw [skusOf_cons] at hnd
        exact hnd.of_cons
      have hxnotin : x.sku ∉ skusOf S' := by
        rw [skusOf_cons] at hnd
        exact (List.nodup_cons.mp hnd).1
      congr 1
      apply ih T' hnd' h2
      intro k
      by_cases hk : k = x.sku
      · subst hk
        rw [(lookup_eq_none_iff S' x.sku).mpr hxnotin,
          (lookup_eq_none_iff T' x.sku).mpr (h2 ▸ hxnotin)]
      · have hl := hlk k
        rw [lookupSku_cons, lookupSku_cons] at hl
        have hb : (x.sku == k) = false := beq_eq_false_of_ne (fun h => hk h.symm)
        rw [hb] at hl
        simpa using hl

theorem applyManual_eq_applyConflict (recs : List Record) : ∀ db : Store,
    applyManual db recs = applyConflict db recs := by
  induction recs with
  | nil => intro db; rfl
  | cons r rs ih =>
    intro db
    show applyManual (upsertManual db r) rs = applyConflict (upsertConflict db r) rs
    rw [upsertManual_eq_upsertConflict, ih]

theorem applyConflict_idem (db : Store) (recs : List Record)
    (hnd : (skusOf db).Nodup) :
    applyConflict (applyConflict db recs) recs = applyConflict db recs := by
  have hmem : ∀ r ∈ recs, r.sku ∈ skusOf (applyConflict db recs) := by
    intro r hr
    have h1 := lookupSku_applyConflict recs db r.sku
    obtain ⟨r', hr'⟩ := Option.isSome_iff_exists.mp (lastWrite_isSome_of_mem hr)
    rw [hr'] at h1
    exact mem_skusOf_of_lookup_some h1
  apply store_ext
  · exact nodup_skusOf_applyConflict recs (applyConflict db recs)
      (nodup_skusOf_applyConflict recs db hnd)
  · exact skusOf_applyConflict_of_mem recs (applyConflict db recs) hmem
  · intro k
    rw [lookupSku_applyConflict recs (applyConflict db recs) k]
    cases hlw : lastWrite recs k with
    | some r => rw [lookupSku_applyConflict recs db k, hlw]
    | none => rfl

theorem countP_sku_eq_one (db : Store) (k : String)
    (hnd : (skusOf db).Nodup) (hmem : k ∈ skusOf db) :
    db.countP (fun r => r.sku == k) = 1 := by
  have h1 : db.countP (fun r => r.sku == k) = (skusOf db).count k := by
    unfold skusOf
    rw [List.count, List.countP_map]
    rfl
  rw [h1]
  have hle := List.nodup_iff_count_le_one.mp hnd k
  have hge := List.count_pos_iff.mpr hmem
  omega

theorem TraceSeq.append {b b2 b3 : Bool} {Δ1 Δ2 : List FlushEvent}
    (h1 : TraceSeq b Δ1 b2) (h2 : TraceSeq b2 Δ2 b3) : TraceSeq b (Δ1 ++ Δ2) b3 := by
  induction h1 with
  | nil => exact h2
  | atomicOk _ ih => exact .atomicOk (ih h2)
  | fallback _ ih => exact .fallback (ih h2)
  | perRecord _ ih => exact .perRecord (ih h2)

theorem TraceSeq.false_start {Δ : List FlushEvent} {b b2 : Bool}
    (h : TraceSeq b Δ b2) (hb : b = false) : ∀ e ∈ Δ, e = FlushEvent.perRecord := by
  induction h with
  | nil => intro e he; cases he
  | atomicOk _ _ => cases hb
  | fallback _ _ => cases hb
  | perRecord _ ih =>
    intro e he
    rcases List.mem_cons.mp he with h1 | h1
    · exact h1
    · exact ih rfl e h1

theorem TraceSeq.false_end {Δ : List FlushEvent} {b b2 : Bool}
    (h : TraceSeq b Δ b2) (hb : b = false) : b2 = false := by
  induction h with
  | nil => exact hb
  | atomicOk _ _ => cases hb
  | fallback _ ih => exact ih rfl
  | perRecord _ ih => exact ih rfl

theorem TraceSeq.good {b b2 : Bool} {Δ : List FlushEvent} (h : TraceSeq b Δ b2) :
    ∀ i j (hi : i < Δ.length) (hj : j < Δ.length), i < j →
      Δ.get ⟨i, hi⟩ ≠ FlushEvent.atomicOk → Δ.get ⟨j, hj⟩ = FlushEvent.perRecord := by
  induction h with
  | nil => intro i j hi; simp at hi
  | atomicOk _ ih =>
    intro i j hi hj hij hne
    cases i with
    | zero => exact absurd rfl hne
    | succ i =>
      cases j with
      | zero => omega
      | succ j =>
        exact ih i j (by simpa using hi) (by simpa using hj) (by omega) hne
  | fallback hΔ ih =>
    rename_i Δ0 b0
    intro i j hi hj hij hne
    cases j with
    | zero => omega
    | succ j =>
      have hj2 : j < Δ0.length := by simpa using hj
      show Δ0.get ⟨j, hj2⟩ = FlushEvent.perRecord
      refine hΔ.false_start rfl _ ?_
      rw [show Δ0.get ⟨j, hj2⟩ = Δ0[j] from rfl]
      exact List.getElem_mem hj2
  | perRecord hΔ ih =>
    rename_i Δ0 b0
    intro i j hi hj hij hne
    cases j with
    | zero => omega
    | succ j =>
      have hj2 : j < Δ0.length := by simpa using hj
      show Δ0.get ⟨j, hj2⟩ = FlushEvent.perRecord
      refine hΔ.false_start rfl _ ?_
      rw [show Δ0.get ⟨j, hj2⟩ = Δ0[j] from rfl]
      exact List.getElem_mem hj2

theorem applyConflict_append_batch (db : Store) (xs ys : List Record) :
    applyConflict db (xs ++ ys) = applyConflict (applyConflict db xs) ys := by
  unfold applyConflict
  rw [List.foldl_append]

theorem flushBatch_ok_spec {env : ℕ → StoreResp} {st st' : LoopState}
    (h : flushBatch env st = (st', none)) :
    applyConflict st'.working st'.batch = applyConflict st.working st.batch ∧
    st'.batch = [] ∧
    st'.skipped = st.skipped ∧ st'.errorLines = st.errorLines ∧ st'.lineNo = st.lineNo ∧
    ∃ Δ, st'.trace = st.trace ++ Δ ∧ TraceSeq st.haveUpsert Δ st'.haveUpsert := by
  unfold flushBatch at h
  by_cases hb : st.batch.isEmpty = true
  · rw [if_pos hb] at h
    injection h with h1 h2
    subst h1
    have hbe : st.batch = [] := List.isEmpty_iff.mp hb
    exact ⟨rfl, hbe, rfl, rfl, rfl, [], by simp, .nil _⟩
  · rw [if_neg hb] at h
    cases hu : st.haveUpsert with
    | true =>
      rw [hu] at h
      rw [if_pos rfl] at h
      cases he : env st.flushCount with
      | ok =>
        rw [he] at h
        injection h with h1 h2
        subst h1
        refine ⟨?_, rfl, rfl, rfl, rfl, [.atomicOk], rfl, ?_⟩
        · show applyConflict (applyConflict st.working st.batch) [] = _
          rfl
        · exact .atomicOk (.nil _)
      | rejectAtomic =>
        rw [he] at h
        injection h with h1 h2
        subst h1
        refine ⟨?_, rfl, rfl, rfl, rfl, [.fallback], rfl, ?_⟩
        · show applyConflict (applyManual st.working st.batch) [] = _
          rw [applyManual_eq_applyConflict]
          rfl
        · exact .fallback (.nil _)
      | fatalStore =>
        rw [he] at h
        injection h with h1 h2
        exact Option.noConfusion h2
    | false =>
      rw [hu] at h
      rw [if_neg (by simp)] at h
      cases he : env st.flushCount with
      | fatalStore =>
        rw [he] at h
        injection h with h1 h2
        exact Option.noConfusion h2
      | ok =>
        rw [he] at h
        injection h with h1 h2
        subst h1
        refine ⟨?_, rfl, rfl, rfl, rfl, [.perRecord], rfl, ?_⟩
        · show applyConflict (applyManual st.working st.batch) [] = _
          rw [applyManual_eq_applyConflict]
          rfl
        · exact .perRecord (.nil _)
      | rejectAtomic =>
        rw [he] at h
        injection h with h1 h2
        subst h1
        refine ⟨?_, rfl, rfl, rfl, rfl, [.perRecord], rfl, ?_⟩
        · show applyConflict (applyManual st.working st.batch) [] = _
          rw [applyManual_eq_applyConflict]
          rfl
        · exact .perRecord (.nil _)

theorem flushBatch_err_spec {env : ℕ → StoreResp} {st st' : LoopState} {e : StoreErr}
    (h : flushBatch env st = (st', some e)) :
    st' = { st with flushCount := st.flushCount + 1 } ∧ e = .fatal := by
  unfold flushBatch at h
  by_cases hb : st.batch.isEmpty = true
  · rw [if_pos hb] at h
    injection h with h1 h2
    exact Option.noConfusion h2
  · rw [if_neg hb] at h
    cases hu : st.haveUpsert with
    | true =>
      rw [hu] at h
      rw [if_pos rfl] at h
      cases he : env st.flushCount with
      | ok =>
        rw [he] at h
        injection h with h1 h2
        exact Option.noConfusion h2
      | rejectAtomic =>
        rw [he] at h
        injection h with h1 h2
        exact Option.noConfusion h2
      | fatalStore =>
        rw [he] at h
        injection h with h1 h2
        exact ⟨h1.symm, (Option.some_injective _ h2).symm⟩
    | false =>
      rw [hu] at h
      rw [if_neg (by simp)] at h
      cases he : env st.flushCount with
      | fatalStore =>
        rw [he] at h
        injection h with h1 h2
        exact ⟨h1.symm, (Option.some_injective _ h2).symm⟩
      | ok =>
        rw [he] at h
        injection h with h1 h2
        exact Option.noConfusion h2
      | rejectAtomic =>
        rw [he] at h
        injection h with h1 h2
        exact Option.noConfusion h2

theorem flushBatch_fst_spec (env : ℕ → StoreResp) (st : LoopState) :
    applyConflict (flushBatch env st).1.working (flushBatch env st).1.batch
        = applyConflict st.working st.batch ∧
    (flushBatch env st).1.lineNo = st.lineNo ∧
    ∃ Δ, (flushBatch env st).1.trace = st.trace ++ Δ ∧
      TraceSeq st.haveUpsert Δ (flushBatch env st).1.haveUpsert := by
  cases hf : flushBatch env st with
  | mk st2 oe =>
    cases oe with
    | none =>
      obtain ⟨a, -, -, -, e1, Δ, f, g⟩ := flushBatch_ok_spec hf
      exact ⟨a, e1, Δ, f, g⟩
    | some e =>
      obtain ⟨he, -⟩ := flushBatch_err_spec hf
      subst he
      exact ⟨rfl, rfl, [], by simp, .nil _⟩

theorem flushBatch_snd_nofatal {env : ℕ → StoreResp}
    (henv : ∀ n, env n ≠ StoreResp.fatalStore) (st : LoopState) :
    (flushBatch env st).2 = none := by
  cases hf : flushBatch env st with
  | mk st2 oe =>
    cases oe with
    | none => rfl
    | some e =>
      obtain ⟨-, -⟩ := flushBatch_err_spec hf
      exfalso
      unfold flushBatch at hf
      by_cases hb : st.batch.isEmpty = true
      · rw [if_pos hb] at hf
        injection hf with h1 h2
        exact Option.noConfusion h2
      · rw [if_neg hb] at hf
        cases hu : st.haveUpsert with
        | true =>
          rw [hu] at hf
          rw [if_pos rfl] at hf
          cases he : env st.flushCount with
          | fatalStore => exact henv _ he
          | ok =>
            rw [he] at hf
            injection hf with h1 h2
            exact Option.noConfusion h2
          | rejectAtomic =>
            rw [he] at hf
            injection hf with h1 h2
            exact Option.noConfusion h2
        | false =>
          rw [hu] at hf
          rw [if_neg (by simp)] at hf
          cases he : env st.flushCount with
          | fatalStore => exact henv _ he
          | ok =>
            rw [he] at hf
            injection hf with h1 h2
            exact Option.noConfusion h2
          | rejectAtomic =>
            rw [he] at hf
            injection hf with h1 h2
            exact Option.noConfusion h2

theorem flushBatch_nofatal {env : ℕ → StoreResp}
    (henv : ∀ n, env n ≠ StoreResp.fatalStore) (st : LoopState) :
    flushBatch env st = ((flushBatch env st).1, none) := by
  have h2 := flushBatch_snd_nofatal henv st
  have h1 : ((flushBatch env st).1, (flushBatch env st).2) = flushBatch env st :=
    Prod.mk.eta
  rw [h2] at h1
  exact h1.symm

theorem processRow_spec (env : ℕ → StoreResp) (hn : List String)
    (tm : Target → Option ℕ) (st : LoopState) (row : List String) :
    applyConflict (processRow env hn tm st row).working (processRow env hn tm st row).batch
        = applyConflict (applyConflict st.working st.batch) (acceptedRecords hn tm [row]) ∧
    (processRow env hn tm st row).lineNo = st.lineNo + 1 ∧
    ∃ Δ, (processRow env hn tm st row).trace = st.trace ++ Δ ∧
      TraceSeq st.haveUpsert Δ (processRow env hn tm st row).haveUpsert := by
  unfold processRow
  by_cases hrej : rowRejected hn tm row = true
  · rw [if_pos hrej]
    refine ⟨?_, rfl, [], by simp, .nil _⟩
    rw [show acceptedRecords hn tm [row] = [] from by simp [acceptedRecords, hrej]]
    rfl
  · rw [if_neg hrej]
    have hacc : acceptedRecords hn tm [row] = [rowRecord hn tm row] := by
      simp [acceptedRecords, hrej]
    by_cases hfl : BATCH_SIZE ≤ (st.batch ++ [rowRecord hn tm row]).length
    · rw [if_pos hfl]
      obtain ⟨f1, f2, Δ, f3, f4⟩ := flushBatch_fst_spec env
        { st with lineNo := st.lineNo + 1, batch := st.batch ++ [rowRecord hn tm row] }
      cases hf : flushBatch env
          { st with lineNo := st.lineNo + 1, batch := st.batch ++ [rowRecord hn tm row] } with
      | mk st3 oe =>
        rw [hf] at f1 f2 f3 f4
        have hres : ∀ stx : LoopState,
            applyConflict stx.working stx.batch
                = applyConflict st.working (st.batch ++ [rowRecord hn tm row]) →
            stx.lineNo = st.lineNo + 1 →
            stx.trace = st.trace ++ Δ →
            TraceSeq st.haveUpsert Δ stx.haveUpsert →
            applyConflict stx.working stx.batch
                = applyConflict (applyConflict st.working st.batch)
                    (acceptedRecords hn tm [row]) ∧
            stx.lineNo = st.lineNo + 1 ∧
            ∃ Δ2, stx.trace = st.trace ++ Δ2 ∧ TraceSeq st.haveUpsert Δ2 stx.haveUpsert := by
          intro stx hv hl ht hs
          refine ⟨?_, hl, Δ, ht, hs⟩
          rw [hv, hacc, applyConflict_append_batch]
        cases oe with
        | none => exact hres st3 f1 f2 f3 f4
        | some e =>
          exact hres { st3 with
                       skipped := st3.skipped + 1,
                       errorLines := st3.errorLines ++ [rowErrMsg (st.lineNo + 1) e] }
            f1 f2 f3 f4
    · rw [if_neg hfl]
      refine ⟨?_, rfl, [], by simp, .nil _⟩
      show applyConflict st.working (st.batch ++ [rowRecord hn tm row]) = _
      rw [hacc, applyConflict_append_batch]

theorem acceptedRecords_cons (hn : List String) (tm : Target → Option ℕ)
    (row : List String) (rest : List (List String)) :
    acceptedRecords hn tm (row :: rest)
      = acceptedRecords hn tm [row] ++ acceptedRecords hn tm rest := by
  unfold acceptedRecords
  rw [show (row :: rest) = [row] ++ rest from rfl, List.filterMap_append]

theorem processRows_spec (env : ℕ → StoreResp) (hn : List String)
    (tm : Target → Option ℕ) :
    ∀ (rows : List (List String)) (st : LoopState),
      applyConflict (processRows env hn tm st rows).working
          (processRows env hn tm st rows).batch
        = applyConflict (applyConflict st.working st.batch) (acceptedRecords hn tm rows) ∧
      (processRows env hn tm st rows).lineNo = st.lineNo + rows.length ∧
      ∃ Δ, (processRows env hn tm st rows).trace = st.trace ++ Δ ∧
        TraceSeq st.haveUpsert Δ (processRows env hn tm st rows).haveUpsert := by
  intro rows
  induction rows with
  | nil =>
    intro st
    exact ⟨rfl, rfl, [], by simp [processRows], .nil _⟩
  | cons row rest ih =>
    intro st
    obtain ⟨r1, r2, Δ1, r3, r4⟩ := processRow_spec env hn tm st row
    obtain ⟨i1, i2, Δ2, i3, i4⟩ := ih (processRow env hn tm st row)
    have hstep : processRows env hn tm st (row :: rest)
        = processRows env hn tm (processRow env hn tm st row) rest := rfl
    rw [hstep]
    refine ⟨?_, ?_, Δ1 ++ Δ2, ?_, ?_⟩
    · rw [acceptedRecords_cons, applyConflict_append_batch, i1, r1]
    · rw [i2, r2]
      show st.lineNo + 1 + rest.length = st.lineNo + (rest.length + 1)
      omega
    · rw [i3, r3, List.append_assoc]
    · exact TraceSeq.append r4 i4

theorem processRow_nofatal_spec {env : ℕ → StoreResp}
    (henv : ∀ n, env n ≠ StoreResp.fatalStore) (hn : List String)
    (tm : Target → Option ℕ) (st : LoopState) (row : List String) :
    (processRow env hn tm st row).skipped
        = st.skipped + (if rowRejected hn tm row then 1 else 0) ∧
    (processRow env hn tm st row).errorLines
        = st.errorLines ++ (if rowRejected hn tm row then [skipMsg (st.lineNo + 1)] else []) := by
  unfold processRow
  by_cases hrej : rowRejected hn tm row = true
  · rw [if_pos hrej]
    simp [hrej]
  · rw [if_neg hrej]
    by_cases hfl : BATCH_SIZE ≤ (st.batch ++ [rowRecord hn tm row]).length
    · rw [if_pos hfl]
      have hfb := flushBatch_nofatal henv
        { st with lineNo := st.lineNo + 1, batch := st.batch ++ [rowRecord hn tm row] }
      obtain ⟨-, -, f3, f4, -, -⟩ := flushBatch_ok_spec hfb
      rw [hfb]
      constructor
      · show (flushBatch env
            { st with
              lineNo := st.lineNo + 1,
              batch := st.batch ++ [rowRecord hn tm row] }).1.skipped = _
        rw [f3]
        simp [hrej]
      · show (flushBatch env
            { st with
              lineNo := st.lineNo + 1,
              batch := st.batch ++ [rowRecord hn tm row] }).1.errorLines = _
        rw [f4]
        simp [hrej]
    · rw [if_neg hfl]
      simp [hrej]

theorem processRows_nofatal_spec {env : ℕ → StoreResp}
    (henv : ∀ n, env n ≠ StoreResp.fatalStore) (hn : List String)
    (tm : Target → Option ℕ) :
    ∀ (rows : List (List String)) (st : LoopState),
      (processRows env hn tm st rows).skipped
          = st.skipped + rows.countP (fun row => rowRejected hn tm row) ∧
      (processRows env hn tm st rows).errorLines
          = st.errorLines ++ diagsFrom hn tm st.lineNo rows := by
  intro rows
  induction rows with
  | nil =>
    intro st
    exact ⟨by simp [processRows], by simp [processRows, diagsFrom]⟩
  | cons row rest ih =>
    intro st
    obtain ⟨p1, p2⟩ := processRow_nofatal_spec henv hn tm st row
    obtain ⟨-, pl, -⟩ := processRow_spec env hn tm st row
    obtain ⟨i1, i2⟩ := ih (processRow env hn tm st row)
    have hstep : processRows env hn tm st (row :: rest)
        = processRows env hn tm (processRow env hn tm st row) rest := rfl
    rw [hstep]
    constructor
    · rw [i1, p1, List.countP_cons]
      by_cases hrej : rowRejected hn tm row = true
      · simp only [hrej, if_true, if_pos]
        omega
      · simp only [hrej, if_false]
        omega
    · rw [i2, p2, pl]
      by_cases hrej : rowRejected hn tm row = true
      · rw [show diagsFrom hn tm st.lineNo (row :: rest)
            = skipMsg (st.lineNo + 1) :: diagsFrom hn tm (st.lineNo + 1) rest from by
          rw [diagsFrom, if_pos hrej]]
        simp [hrej]
      · rw [show diagsFrom hn tm st.lineNo (row :: rest)
            = diagsFrom hn tm (st.lineNo + 1) rest from by
          rw [diagsFrom, if_neg hrej]]
        simp [hrej]

theorem processFile_ok_spec {env : ℕ → StoreResp} {hn : List String}
    {tm : Target → Option ℕ} {st : LoopState} {rows : List (List String)}
    {st' : LoopState} (h : processFile env hn tm st rows = .ok st') :
    st'.working = applyConflict (applyConflict st.working st.batch)
        (acceptedRecords hn tm rows) ∧
    st'.batch = [] ∧
    st'.skipped = (processRows env hn tm st rows).skipped ∧
    st'.errorLines = (processRows env hn tm st rows).errorLines ∧
    ∃ Δ, st'.trace = st.trace ++ Δ ∧ TraceSeq st.haveUpsert Δ st'.haveUpsert := by
  unfold processFile at h
  cases hf : flushBatch env (processRows env hn tm st rows) with
  | mk st2 oe =>
    rw [hf] at h
    cases oe with
    | some e => cases h
    | none =>
      injection h with h
      obtain ⟨p1, p2, Δ1, p3, p4⟩ := processRows_spec env hn tm rows st
      obtain ⟨f1, f2, f3, f4, -, Δ2, f6, f7⟩ := flushBatch_ok_spec hf
      rw [← h]
      refine ⟨?_, f2, f3, f4, Δ1 ++ Δ2, ?_, TraceSeq.append p4 f7⟩
      · have h0 : applyConflict st2.working st2.batch = st2.working :=
          congrArg (applyConflict st2.working) f2
        rw [← h0, f1, p1]
      · rw [f6, p3, List.append_assoc]

theorem processFile_nofatal {env : ℕ → StoreResp} {hn : List String}
    {tm : Target → Option ℕ} {st : LoopState} {rows : List (List String)}
    (henv : ∀ n, env n ≠ StoreResp.fatalStore) :
    processFile env hn tm st rows
      = .ok (flushBatch env (processRows env hn tm st rows)).1 := by
  unfold processFile
  rw [flushBatch_nofatal henv (processRows env hn tm st rows)]

theorem importRun_eq_of_empty {env : ℕ → StoreResp} {initial : Store}
    {rawHeaders : List String} {rows : List (List String)}
    (hE : rawHeaders.isEmpty = true) :
    importRun env initial rawHeaders rows =
      { committed := initial, fatalError := true, skipped := 0,
        diagnostics := [], trace := [] } := by
  unfold importRun
  rw [if_pos hE]

theorem importRun_eq_of_error {env : ℕ → StoreResp} {initial : Store}
    {rawHeaders : List String} {rows : List (List String)} {e : StoreErr}
    (hE : rawHeaders.isEmpty = false)
    (hpf : processFile env (normHeaders rawHeaders)
        (build_header_map (normHeaders rawHeaders)) (initState initial) rows = .error e) :
    importRun env initial rawHeaders rows =
      { committed := initial, fatalError := true, skipped := 0,
        diagnostics := [], trace := [] } := by
  unfold importRun
  rw [hE]
  simp only [Bool.false_eq_true, if_false, hpf]

theorem importRun_eq_of_ok {env : ℕ → StoreResp} {initial : Store}
    {rawHeaders : List String} {rows : List (List String)} {st : LoopState}
    (hE : rawHeaders.isEmpty = false)
    (hpf : processFile env (normHeaders rawHeaders)
        (build_header_map (normHeaders rawHeaders)) (initState initial) rows = .ok st) :
    importRun env initial rawHeaders rows =
      { committed := st.working, fatalError := false, skipped := st.skipped,
        diagnostics := st.errorLines, trace := st.trace } := by
  unfold importRun
  rw [hE]
  simp only [Bool.false_eq_true, if_false, hpf]

theorem importRun_ok_cases {env : ℕ → StoreResp} {initial : Store}
    {rawHeaders : List String} {rows : List (List String)}
    (h : (importRun env initial rawHeaders rows).fatalError = false) :
    rawHeaders.isEmpty = false ∧
    ∃ st, processFile env (normHeaders rawHeaders)
        (build_header_map (normHeaders rawHeaders)) (initState initial) rows = .ok st ∧
      importRun env initial rawHeaders rows =
        { committed := st.working, fatalError := false, skipped := st.skipped,
          diagnostics := st.errorLines, trace := st.trace } := by
  by_cases hE : rawHeaders.isEmpty = true
  · rw [importRun_eq_of_empty hE] at h
    cases h
  · have hE2 : rawHeaders.isEmpty = false := eq_false_of_ne_true hE
    refine ⟨hE2, ?_⟩
    cases hpf : processFile env (normHeaders rawHeaders)
        (build_header_map (normHeaders rawHeaders)) (initState initial) rows with
    | error e =>
      rw [importRun_eq_of_error hE2 hpf] at h
      cases h
    | ok st => exact ⟨st, rfl, importRun_eq_of_ok hE2 hpf⟩

theorem importRun_ok_spec {env : ℕ → StoreResp} {initial : Store}
    {rawHeaders : List String} {rows : List (List String)}
    (h : (importRun env initial rawHeaders rows).fatalError = false) :
    (importRun env initial rawHeaders rows).committed
        = applyConflict initial (acceptedRecords (normHeaders rawHeaders)
            (build_header_map (normHeaders rawHeaders)) rows) ∧
    ∃ b2, TraceSeq true (importRun env initial rawHeaders rows).trace b2 := by
  obtain ⟨hE, st, hpf, heq⟩ := importRun_ok_cases h
  obtain ⟨w1, -, -, -, Δ, w5, w6⟩ := processFile_ok_spec hpf
  rw [heq]
  refine ⟨?_, ⟨st.haveUpsert, ?_⟩⟩
  · show st.working = _
    rw [w1]
    rfl
  · show TraceSeq true st.trace st.haveUpsert
    rw [w5]
    exact w6

theorem importRun_nofatal_spec {env : ℕ → StoreResp} {initial : Store}
    {rawHeaders : List String} {rows : List (List String)}
    (henv : ∀ n, env n ≠ StoreResp.fatalStore)
    (hhdr : rawHeaders.isEmpty = false) :
    (importRun env initial rawHeaders rows).fatalError = false ∧
    (importRun env initial rawHeaders rows).skipped
        = rows.countP (fun row => rowRejected (normHeaders rawHeaders)
            (build_header_map (normHeaders rawHeaders)) row) ∧
    (importRun env initial rawHeaders rows).diagnostics
        = diagsFrom (normHeaders rawHeaders)
            (build_header_map (normHeaders rawHeaders)) 1 rows := by
  have hpf := @processFile_nofatal env (normHeaders rawHeaders)
    (build_header_map (normHeaders rawHeaders)) (initState initial) rows henv
  rw [importRun_eq_of_ok hhdr hpf]
  obtain ⟨-, -, f3, f4, -, -⟩ := flushBatch_ok_spec (flushBatch_nofatal henv
    (processRows env (normHeaders rawHeaders)
      (build_header_map (normHeaders rawHeaders)) (initState initial) rows))
  obtain ⟨p1, p2⟩ := processRows_nofatal_spec henv (normHeaders rawHeaders)
    (build_header_map (normHeaders rawHeaders)) rows (initState initial)
  refine ⟨rfl, ?_, ?_⟩
  · show (flushBatch env _).1.skipped = _
    rw [f3, p1]
    simp [initState]
  · show (flushBatch env _).1.errorLines = _
    rw [f4, p2]
    rfl

theorem flushBatch_atomic_ok (env : ℕ → StoreResp) (st : LoopState)
    (hne : st.batch.isEmpty = false) (hu : st.haveUpsert = true)
    (he : env st.flushCount = .ok) :
    flushBatch env st
      = ({ st with
           batch := [], working := applyConflict st.working st.batch,
           flushCount := st.flushCount + 1,
           trace := st.trace ++ [FlushEvent.atomicOk] }, none) := by
  simp [flushBatch, hne, hu, he]

theorem flushBatch_reject (env : ℕ → StoreResp) (st : LoopState)
    (hne : st.batch.isEmpty = false) (hu : st.haveUpsert = true)
    (he : env st.flushCount = .rejectAtomic) :
    flushBatch env st
      = ({ st with
           batch := [], haveUpsert := false,
           working := applyManual st.working st.batch,
           flushCount := st.flushCount + 1,
           trace := st.trace ++ [FlushEvent.fallback] }, none) := by
  simp [flushBatch, hne, hu, he]

theorem flushBatch_fatal (env : ℕ → StoreResp) (st : LoopState)
    (hne : st.batch.isEmpty = false)
    (he : env st.flushCount = .fatalStore) :
    flushBatch env st
      = ({ st with flushCount := st.flushCount + 1 }, some StoreErr.fatal) := by
  unfold flushBatch
  cases hu : st.haveUpsert <;> simp [hne, hu, he]

theorem flushBatch_perRecord (env : ℕ → StoreResp) (st : LoopState)
    (hne : st.batch.isEmpty = false) (hu : st.haveUpsert = false)
    (he : env st.flushCount ≠ .fatalStore) :
    flushBatch env st
      = ({ st with
           batch := [], working := applyManual st.working st.batch,
           flushCount := st.flushCount + 1,
           trace := st.trace ++ [FlushEvent.perRecord] }, none) := by
  unfold flushBatch
  rw [if_neg (by simp [hne]), if_neg (by simp [hu])]
  cases he2 : env st.flushCount with
  | fatalStore => exact absurd he2 he
  | ok => rfl
  | rejectAtomic => rfl

theorem processRow_accept_nofill (env : ℕ → StoreResp) (hn : List String)
    (tm : Target → Option ℕ) (st : LoopState) (row : List String)
    (hrej : rowRejected hn tm row = false)
    (hlen : (st.batch ++ [rowRecord hn tm row]).length < BATCH_SIZE) :
    processRow env hn tm st row
      = { st with
          lineNo := st.lineNo + 1,
          batch := st.batch ++ [rowRecord hn tm row] } := by
  unfold processRow
  rw [if_neg (by simp [hrej]), if_neg (Nat.not_le.mpr hlen)]

theorem processRow_accept_flush_ok (env : ℕ → StoreResp) (hn : List String)
    (tm : Target → Option ℕ) (st : LoopState) (row : List String)
    (hrej : rowRejected hn tm row = false)
    (hlen : BATCH_SIZE ≤ (st.batch ++ [rowRecord hn tm row]).length)
    (hu : st.haveUpsert = true) (he : env st.flushCount = .ok) :
    processRow env hn tm st row
      = { st with
          batch := [], lineNo := st.lineNo + 1,
          working := applyConflict st.working (st.batch ++ [rowRecord hn tm row]),
          flushCount := st.flushCount + 1,
          trace := st.trace ++ [FlushEvent.atomicOk] } := by
  unfold processRow
  rw [if_neg (by simp [hrej]), if_pos hlen,
    flushBatch_atomic_ok env
      { st with
        lineNo := st.lineNo + 1,
        batch := st.batch ++ [rowRecord hn tm row] }
      (by simp) hu he]

theorem processRow_accept_flush_reject (env : ℕ → StoreResp) (hn : List String)
    (tm : Target → Option ℕ) (st : LoopState) (row : List String)
    (hrej : rowRejected hn tm row = false)
    (hlen : BATCH_SIZE ≤ (st.batch ++ [rowRecord hn tm row]).length)
    (hu : st.haveUpsert = true) (he : env st.flushCount = .rejectAtomic) :
    processRow env hn tm st row
      = { st with
          batch := [], haveUpsert := false, lineNo := st.lineNo + 1,
          working := applyManual st.working (st.batch ++ [rowRecord hn tm row]),
          flushCount := st.flushCount + 1,
          trace := st.trace ++ [FlushEvent.fallback] } := by
  unfold processRow
  rw [if_neg (by simp [hrej]), if_pos hlen,
    flushBatch_reject env
      { st with
        lineNo := st.lineNo + 1,
        batch := st.batch ++ [rowRecord hn tm row] }
      (by simp) hu he]

theorem processRow_accept_flush_fatal (env : ℕ → StoreResp) (hn : List String)
    (tm : Target → Option ℕ) (st : LoopState) (row : List String)
    (hrej : rowRejected hn tm row = false)
    (hlen : BATCH_SIZE ≤ (st.batch ++ [rowRecord hn tm row]).length)
    (he : env st.flushCount = .fatalStore) :
    processRow env hn tm st row
      = { st with
          batch := st.batch ++ [rowRecord hn tm row],
          skipped := st.skipped + 1,
          errorLines := st.errorLines ++ [rowErrMsg (st.lineNo + 1) StoreErr.fatal],
          lineNo := st.lineNo + 1,
          flushCount := st.flushCount + 1 } := by
  unfold processRow
  rw [if_neg (by simp [hrej]), if_pos hlen,
    flushBatch_fatal env
      { st with
        lineNo := st.lineNo + 1,
        batch := st.batch ++ [rowRecord hn tm row] }
      (by simp) he]

theorem processRows_singleton (env : ℕ → StoreResp) (hn : List String)
    (tm : Target → Option ℕ) (st : LoopState) (row : List String) :
    processRows env hn tm st [row] = processRow env hn tm st row := rfl

theorem processRows_replicate_fill (env : ℕ → StoreResp) (hn : List String)
    (tm : Target → Option ℕ) (row : List String)
    (hrej : rowRejected hn tm row = false) :
    ∀ (k : ℕ) (st : LoopState), st.batch.length + k < BATCH_SIZE →
      processRows env hn tm st (List.replicate k row)
        = { st with
            batch := st.batch ++ List.replicate k (rowRecord hn tm row),
            lineNo := st.lineNo + k } := by
  intro k
  induction k with
  | zero =>
    intro st hk
    show st = _
    rw [show List.replicate 0 (rowRecord hn tm row) = ([] : List Record) from rfl,
      List.append_nil]
    rfl
  | succ k ih =>
    intro st hk
    rw [List.replicate_succ]
    show processRows env hn tm (processRow env hn tm st row) (List.replicate k row) = _
    rw [processRow_accept_nofill env hn tm st row hrej (by simp; omega)]
    rw [ih { st with
             lineNo := st.lineNo + 1,
             batch := st.batch ++ [rowRecord hn tm row] }
      (by simp; omega)]
    have hb : (st.batch ++ [rowRecord hn tm row]) ++ List.replicate k (rowRecord hn tm row)
        = st.batch ++ List.replicate (k + 1) (rowRecord hn tm row) := by
      rw [List.append_assoc, List.singleton_append, ← List.replicate_succ]
    have hl : st.lineNo + 1 + k = st.lineNo + (k + 1) := by omega
    rw [hb, hl]

theorem upsertConflict_ne_nil (db : Store) (r : Record) :
    upsertConflict db r ≠ [] := by
  unfold upsertConflict
  by_cases h : db.any (fun x => x.sku == r.sku) = true
  · rw [if_pos h]
    cases db with
    | nil => simp at h
    | cons a l => simp
  · rw [if_neg h]
    simp

theorem applyConflict_snoc_ne_nil (db : Store) (xs : List Record) (r : Record) :
    applyConflict db (xs ++ [r]) ≠ [] := by
  rw [applyConflict_append_batch]
  exact upsertConflict_ne_nil _ _

theorem applyManual_snoc_ne_nil (db : Store) (xs : List Record) (r : Record) :
    applyManual db (xs ++ [r]) ≠ [] := by
  rw [applyManual_eq_applyConflict, applyConflict_append_batch]
  exact upsertConflict_ne_nil _ _

theorem flushBatch_empty (env : ℕ → StoreResp) (st : LoopState)
    (h : st.batch.isEmpty = true) : flushBatch env st = (st, none) := by
  unfold flushBatch
  rw [if_pos h]

theorem processFile_of_processRows (env : ℕ → StoreResp) (hn : List String)
    (tm : Target → Option ℕ) (st : LoopState) (rows : List (List String))
    (st' : LoopState) (h : processRows env hn tm st rows = st')
    (hb : st'.batch.isEmpty = true) :
    processFile env hn tm st rows = .ok st' := by
  unfold processFile
  rw [h, flushBatch_empty env st' hb]

theorem processFile_trailing_perRecord (env : ℕ → StoreResp) (hn : List String)
    (tm : Target → Option ℕ) (st : LoopState) (rows : List (List String))
    (st' : LoopState) (h : processRows env hn tm st rows = st')
    (hne : st'.batch.isEmpty = false) (hu : st'.haveUpsert = false)
    (he : env st'.flushCount ≠ .fatalStore) :
    processFile env hn tm st rows
      = .ok { st' with
              batch := [], working := applyManual st'.working st'.batch,
              flushCount := st'.flushCount + 1,
              trace := st'.trace ++ [FlushEvent.perRecord] } := by
  unfold processFile
  rw [h, flushBatch_perRecord env st' hne hu he]

theorem processRows_append (env : ℕ → StoreResp) (hn : List String)
    (tm : Target → Option ℕ) (l1 l2 : List (List String)) :
    ∀ st, processRows env hn tm st (l1 ++ l2)
      = processRows env hn tm (processRows env hn tm st l1) l2 := by
  induction l1 with
  | nil => intro st; rfl
  | cons row rest ih => intro st; exact ih (processRow env hn tm st row)

set_option maxRecDepth 100000 in
/-- Counterexample to C1: a store whose second flush attempt fails fatally
and otherwise works.  On the 1001-row file the first flush (row 500)
succeeds and applies its batch; the second, mid-stream flush (row 1000)
raises the fatal store error — but that `flush_batch()` call sits inside
the per-row `try`, so the per-row handler swallows it as one more skipped
line and the run continues with the batch retained; the third flush and
the commit then succeed.  The run ends with no fatal error and a non-empty
committed store, refuting the claim that a store failing unrecoverably
after some batches were applied rolls the transaction back and surfaces a
fatal error. -/
theorem claim_c1_counterexample :
    (importRun failSecondEnv [] ["sku", "name"] rows1001).fatalError = false ∧
    (importRun failSecondEnv [] ["sku", "name"] rows1001).committed ≠ [] ∧
    (importRun failSecondEnv [] ["sku", "name"] rows1001).skipped = 1 := by
  have hrej : rowRejected (normHeaders ["sku", "name"]) (build_header_map (normHeaders ["sku", "name"])) ["a", "x"] = false := by decide
  have hone : ([["a", "x"]] : List (List String)) = List.replicate 1 ["a", "x"] := rfl
  have hsplit : rows1001
      = List.replicate 499 ["a", "x"]
        ++ ([["a", "x"]]
          ++ (List.replicate 499 ["a", "x"] ++ ([["a", "x"]] ++ [["a", "x"]]))) := by
    rw [hone, ← List.replicate_add, ← List.replicate_add, ← List.replicate_add,
      ← List.replicate_add]
    rfl
  have hA : processRows failSecondEnv (normHeaders ["sku", "name"]) (build_header_map (normHeaders ["sku", "name"])) (initState []) (List.replicate 499 ["a", "x"])
      = { batch := List.replicate 499 (rowRecord (normHeaders ["sku", "name"]) (build_header_map (normHeaders ["sku", "name"])) ["a", "x"]), skipped := 0, errorLines := [], lineNo := 500, haveUpsert := true, flushCount := 0, working := [], trace := [] } :=
    processRows_replicate_fill failSecondEnv (normHeaders ["sku", "name"]) (build_header_map (normHeaders ["sku", "name"])) ["a", "x"] hrej 499 (initState []) (by decide)
  have hB : ∀ w : Store, processRows failSecondEnv (normHeaders ["sku", "name"]) (build_header_map (normHeaders ["sku", "name"]))
      { batch := List.replicate 499 (rowRecord (normHeaders ["sku", "name"]) (build_header_map (normHeaders ["sku", "name"])) ["a", "x"]), skipped := 0, errorLines := [], lineNo := 500, haveUpsert := true, flushCount := 0, working := w, trace := [] } [["a", "x"]]
      = { batch := [], skipped := 0, errorLines := [], lineNo := 501, haveUpsert := true, flushCount := 1, working := applyConflict w (List.replicate 499 (rowRecord (normHeaders ["sku", "name"]) (build_header_map (normHeaders ["sku", "name"])) ["a", "x"]) ++ [rowRecord (normHeaders ["sku", "name"]) (build_header_map (normHeaders ["sku", "name"])) ["a", "x"]]), trace := [FlushEvent.atomicOk] } :=
    fun w => processRow_accept_flush_ok failSecondEnv (normHeaders ["sku", "name"]) (build_header_map (normHeaders ["sku", "name"]))
      { batch := List.replicate 499 (rowRecord (normHeaders ["sku", "name"]) (build_header_map (normHeaders ["sku", "name"])) ["a", "x"]), skipped := 0, errorLines := [], lineNo := 500, haveUpsert := true, flushCount := 0, working := w, trace := [] } ["a", "x"] hrej (by simp only [List.length_append, List.length_replicate, List.length_singleton, List.length_nil]; decide) rfl rfl
  have hC : ∀ w : Store, processRows failSecondEnv (normHeaders ["sku", "name"]) (build_header_map (normHeaders ["sku", "name"]))
      { batch := [], skipped := 0, errorLines := [], lineNo := 501, haveUpsert := true, flushCount := 1, working := w, trace := [FlushEvent.atomicOk] } (List.replicate 499 ["a", "x"])
      = { batch := List.replicate 499 (rowRecord (normHeaders ["sku", "name"]) (build_header_map (normHeaders ["sku", "name"])) ["a", "x"]), skipped := 0, errorLines := [], lineNo := 1000, haveUpsert := true, flushCount := 1, working := w, trace := [FlushEvent.atomicOk] } :=
    fun w => processRows_replicate_fill failSecondEnv (normHeaders ["sku", "name"]) (build_header_map (normHeaders ["sku", "name"])) ["a", "x"] hrej 499 _ (by simp only [List.length_append, List.length_replicate, List.length_singleton, List.length_nil]; decide)
  have hD : ∀ w : Store, processRows failSecondEnv (normHeaders ["sku", "name"]) (build_header_map (normHeaders ["sku", "name"]))
      { batch := List.replicate 499 (rowRecord (normHeaders ["sku", "name"]) (build_header_map (normHeaders ["sku", "name"])) ["a", "x"]), skipped := 0, errorLines := [], lineNo := 1000, haveUpsert := true, flushCount := 1, working := w, trace := [FlushEvent.atomicOk] } [["a", "x"]]
      = { batch := List.replicate 499 (rowRecord (normHeaders ["sku", "name"]) (build_header_map (normHeaders ["sku", "name"])) ["a", "x"]) ++ [rowRecord (normHeaders ["sku", "name"]) (build_header_map (normHeaders ["sku", "name"])) ["a", "x"]], skipped := 1, errorLines := [rowErrMsg 1001 StoreErr.fatal], lineNo := 1001, haveUpsert := true, flushCount := 2, working := w, trace := [FlushEvent.atomicOk] } :=
    fun w => processRow_accept_flush_fatal failSecondEnv (normHeaders ["sku", "name"]) (build_header_map (normHeaders ["sku", "name"]))
      { batch := List.replicate 499 (rowRecord (normHeaders ["sku", "name"]) (build_header_map (normHeaders ["sku", "name"])) ["a", "x"]), skipped := 0, errorLines := [], lineNo := 1000, haveUpsert := true, flushCount := 1, working := w, trace := [FlushEvent.atomicOk] } ["a", "x"] hrej (by simp only [List.length_append, List.length_replicate, List.length_singleton, List.length_nil]; decide) rfl
  have hE : ∀ w : Store, processRows failSecondEnv (normHeaders ["sku", "name"]) (build_header_map (normHeaders ["sku", "name"]))
      { batch := List.replicate 499 (rowRecord (normHeaders ["sku", "name"]) (build_header_map (normHeaders ["sku", "name"])) ["a", "x"]) ++ [rowRecord (normHeaders ["sku", "name"]) (build_header_map (normHeaders ["sku", "name"])) ["a", "x"]], skipped := 1, errorLines := [rowErrMsg 1001 StoreErr.fatal], lineNo := 1001, haveUpsert := true, flushCount := 2, working := w, trace := [FlushEvent.atomicOk] } [["a", "x"]]
      = { batch := [], skipped := 1, errorLines := [rowErrMsg 1001 StoreErr.fatal], lineNo := 1002, haveUpsert := true, flushCount := 3, working := applyConflict w ((List.replicate 499 (rowRecord (normHeaders ["sku", "name"]) (build_header_map (normHeaders ["sku", "name"])) ["a", "x"]) ++ [rowRecord (normHeaders ["sku", "name"]) (build_header_map (normHeaders ["sku", "name"])) ["a", "x"]]) ++ [rowRecord (normHeaders ["sku", "name"]) (build_header_map (normHeaders ["sku", "name"])) ["a", "x"]]), trace := [FlushEvent.atomicOk, FlushEvent.atomicOk] } :=
    fun w => processRow_accept_flush_ok failSecondEnv (normHeaders ["sku", "name"]) (build_header_map (normHeaders ["sku", "name"]))
      { batch := List.replicate 499 (rowRecord (normHeaders ["sku", "name"]) (build_header_map (normHeaders ["sku", "name"])) ["a", "x"]) ++ [rowRecord (normHeaders ["sku", "name"]) (build_header_map (normHeaders ["sku", "name"])) ["a", "x"]], skipped := 1, errorLines := [rowErrMsg 1001 StoreErr.fatal], lineNo := 1001, haveUpsert := true, flushCount := 2, working := w, trace := [FlushEvent.atomicOk] } ["a", "x"] hrej (by simp only [List.length_append, List.length_replicate, List.length_singleton, List.length_nil]; decide) rfl rfl
  have hrows : processRows failSecondEnv (normHeaders ["sku", "name"]) (build_header_map (normHeaders ["sku", "name"])) (initState []) rows1001
      = { batch := [], skipped := 1, errorLines := [rowErrMsg 1001 StoreErr.fatal], lineNo := 1002, haveUpsert := true, flushCount := 3, working := applyConflict (applyConflict [] (List.replicate 499 (rowRecord (normHeaders ["sku", "name"]) (build_header_map (normHeaders ["sku", "name"])) ["a", "x"]) ++ [rowRecord (normHeaders ["sku", "name"]) (build_header_map (normHeaders ["sku", "name"])) ["a", "x"]])) ((List.replicate 499 (rowRecord (normHeaders ["sku", "name"]) (build_header_map (normHeaders ["sku", "name"])) ["a", "x"]) ++ [rowRecord (normHeaders ["sku", "name"]) (build_header_map (normHeaders ["sku", "name"])) ["a", "x"]]) ++ [rowRecord (normHeaders ["sku", "name"]) (build_header_map (normHeaders ["sku", "name"])) ["a", "x"]]), trace := [FlushEvent.atomicOk, FlushEvent.atomicOk] } := by
    rw [hsplit, processRows_append, processRows_append, processRows_append,
      processRows_append, hA, hB [],
      hC (applyConflict [] (List.replicate 499 (rowRecord (normHeaders ["sku", "name"]) (build_header_map (normHeaders ["sku", "name"])) ["a", "x"]) ++ [rowRecord (normHeaders ["sku", "name"]) (build_header_map (normHeaders ["sku", "name"])) ["a", "x"]])),
      hD (applyConflict [] (List.replicate 499 (rowRecord (normHeaders ["sku", "name"]) (build_header_map (normHeaders ["sku", "name"])) ["a", "x"]) ++ [rowRecord (normHeaders ["sku", "name"]) (build_header_map (normHeaders ["sku", "name"])) ["a", "x"]])),
      hE (applyConflict [] (List.replicate 499 (rowRecord (normHeaders ["sku", "name"]) (build_header_map (normHeaders ["sku", "name"])) ["a", "x"]) ++ [rowRecord (normHeaders ["sku", "name"]) (build_header_map (normHeaders ["sku", "name"])) ["a", "x"]]))]
  have hpf := processFile_of_processRows failSecondEnv (normHeaders ["sku", "name"])
    (build_header_map (normHeaders ["sku", "name"])) (initState []) rows1001 _ hrows rfl
  have hrun := @importRun_eq_of_ok failSecondEnv [] ["sku", "name"] rows1001 _ rfl hpf
  rw [hrun]
  refine ⟨rfl, ?_, rfl⟩
  apply applyConflict_snoc_ne_nil

/-- C1 (amended): only the trailing end-of-file flush can abort the run —
when file-level processing reports the fatal store error, the transaction
is rolled back: the committed store equals the pre-run store and a fatal
error is surfaced.  A fatal store failure at a mid-stream flush is instead
caught by the per-row handler: the row is processed, the flush error is
absorbed as one more skipped line with the store error logged under the
current line number, the unflushed batch is retained, and the run
continues. -/
theorem claim_c1_rollback_amended :
    (∀ (env : ℕ → StoreResp) (initial : Store) (rawHeaders : List String)
        (rows : List (List String)) (e : StoreErr),
      processFile env (normHeaders rawHeaders)
          (build_header_map (normHeaders rawHeaders)) (initState initial) rows = .error e →
      (importRun env initial rawHeaders rows).committed = initial ∧
      (importRun env initial rawHeaders rows).fatalError = true) ∧
    (∀ (env : ℕ → StoreResp) (hn : List String) (tm : Target → Option ℕ)
        (st : LoopState) (row : List String),
      rowRejected hn tm row = false →
      BATCH_SIZE ≤ (st.batch ++ [rowRecord hn tm row]).length →
      env st.flushCount = .fatalStore →
      processRow env hn tm st row
        = { st with lineNo := st.lineNo + 1,
                    batch := st.batch ++ [rowRecord hn tm row],
                    flushCount := st.flushCount + 1,
                    skipped := st.skipped + 1,
                    errorLines := st.errorLines
                      ++ [rowErrMsg (st.lineNo + 1) StoreErr.fatal] }) := by
  constructor
  · intro env initial rawHeaders rows e hfail
    by_cases hE : rawHeaders.isEmpty = true
    · rw [importRun_eq_of_empty hE]
      exact ⟨rfl, rfl⟩
    · rw [importRun_eq_of_error (eq_false_of_ne_true hE) hfail]
      exact ⟨rfl, rfl⟩
  · intro env hn tm st row hrej hlen he
    exact processRow_accept_flush_fatal env hn tm st row hrej hlen he

set_option maxRecDepth 200000 in
/-- Witness for C1 (amended): part one at an always-fatal store on a
one-row file starting from a one-record store — the trailing flush fails
and the run keeps the prior store with a fatal error; part two at a state
holding 499 batched records whose next accepted row triggers a fatal
mid-stream flush — absorbed as one skipped line with the store-error
diagnostic and the batch kept. -/
theorem claim_c1_rollback_amended_witness :
    ((importRun (fun _ => StoreResp.fatalStore) [⟨"z", "old", 0, 0, "", "", "", ""⟩]
        ["sku", "name"] [["a", "x"]]).committed = [⟨"z", "old", 0, 0, "", "", "", ""⟩] ∧
     (importRun (fun _ => StoreResp.fatalStore) [⟨"z", "old", 0, 0, "", "", "", ""⟩]
        ["sku", "name"] [["a", "x"]]).fatalError = true) ∧
    processRow (fun _ => StoreResp.fatalStore) (normHeaders ["sku", "name"])
        (build_header_map (normHeaders ["sku", "name"]))
        { batch := List.replicate 499 ⟨"a", "n", 0, 0, "", "", "", ""⟩, skipped := 0,
          errorLines := [], lineNo := 1, haveUpsert := true, flushCount := 0,
          working := [], trace := [] } ["a", "x"]
      = { batch := List.replicate 499 ⟨"a", "n", 0, 0, "", "", "", ""⟩
            ++ [rowRecord (normHeaders ["sku", "name"])
                  (build_header_map (normHeaders ["sku", "name"])) ["a", "x"]],
          skipped := 1,
          errorLines := [rowErrMsg 2 StoreErr.fatal],
          lineNo := 2, haveUpsert := true, flushCount := 1,
          working := [], trace := [] } := by
  constructor
  · exact claim_c1_rollback_amended.1 (fun _ => StoreResp.fatalStore)
      [⟨"z", "old", 0, 0, "", "", "", ""⟩] ["sku", "name"] [["a", "x"]] StoreErr.fatal rfl
  · exact claim_c1_rollback_amended.2 (fun _ => StoreResp.fatalStore)
      (normHeaders ["sku", "name"]) (build_header_map (normHeaders ["sku", "name"]))
      { batch := List.replicate 499 ⟨"a", "n", 0, 0, "", "", "", ""⟩, skipped := 0,
        errorLines := [], lineNo := 1, haveUpsert := true, flushCount := 0,
        working := [], trace := [] } ["a", "x"] (by decide) (by simp only [List.length_append, List.length_replicate, List.length_singleton, List.length_nil]; decide) rfl

/-- C5: once a flush has the atomic upsert form rejected, the whole batch is
still persisted through the per-record fallback and the `have_upsert` flag
drops; from a cleared flag, every later flush of the run goes per record and
the flag never comes back (so the run's flush trace never shows an atomic
attempt after a non-atomic event). -/
theorem claim_c5_sticky_fallback :
    (∀ (env : ℕ → StoreResp) (st : LoopState), st.batch ≠ [] → st.haveUpsert = true →
      env st.flushCount = .rejectAtomic →
      flushBatch env st = ({ st with
        batch := [], haveUpsert := false,
        working := applyManual st.working st.batch,
        flushCount := st.flushCount + 1, trace := st.trace ++ [.fallback] }, none)) ∧
    (∀ (env : ℕ → StoreResp) (hn : List String) (tm : Target → Option ℕ)
        (st : LoopState) (rows : List (List String)) (st' : LoopState),
      st.haveUpsert = false → processRows env hn tm st rows = st' →
      st'.haveUpsert = false ∧
        ∃ Δ, st'.trace = st.trace ++ Δ ∧ ∀ ev ∈ Δ, ev = FlushEvent.perRecord) ∧
    (∀ (env : ℕ → StoreResp) (initial : Store) (rawHeaders : List String)
        (rows : List (List String)),
      (importRun env initial rawHeaders rows).fatalError = false →
      ∀ i j (hi : i < (importRun env initial rawHeaders rows).trace.length)
        (hj : j < (importRun env initial rawHeaders rows).trace.length),
        i < j →
        (importRun env initial rawHeaders rows).trace.get ⟨i, hi⟩ ≠ FlushEvent.atomicOk →
        (importRun env initial rawHeaders rows).trace.get ⟨j, hj⟩ = FlushEvent.perRecord) := by
  refine ⟨?_, ?_, ?_⟩
  · intro env st hne hu he
    have hbe : st.batch.isEmpty = false :=
      eq_false_of_ne_true (fun hh => hne (List.isEmpty_iff.mp hh))
    simp [flushBatch, hbe, hu, he]
  · intro env hn tm st rows st' hu hrun
    subst hrun
    obtain ⟨-, -, Δ, htr, hts⟩ := processRows_spec env hn tm rows st
    rw [hu] at hts
    exact ⟨hts.false_end rfl, Δ, htr, hts.false_start rfl⟩
  · intro env initial rawHeaders rows hok i j hi hj hij hne
    obtain ⟨-, b2, hts⟩ := importRun_ok_spec hok
    exact hts.good i j hi hj hij hne

set_option maxRecDepth 100000 in
/-- Witness for C5: a rejected flush of a one-record batch persists it per
record with the flag cleared; a loop entered with the flag down keeps it
down; and in the concrete 501-row run whose first flush is rejected, the
trace event after the fallback is a per-record flush. -/
theorem claim_c5_sticky_fallback_witness :
    flushBatch (fun _ => StoreResp.rejectAtomic)
        { batch := [⟨"a", "n", 0, 0, "", "", "", ""⟩], skipped := 0, errorLines := [],
          lineNo := 1, haveUpsert := true, flushCount := 0, working := [], trace := [] }
      = ({ batch := [], skipped := 0, errorLines := [], lineNo := 1,
           haveUpsert := false, flushCount := 1,
           working := applyManual [] [⟨"a", "n", 0, 0, "", "", "", ""⟩],
           trace := [FlushEvent.fallback] }, none) ∧
    ((initState []).haveUpsert = false ∨
      ∃ Δ, (initState []).trace = (initState []).trace ++ Δ ∧
        ∀ ev ∈ Δ, ev = FlushEvent.perRecord) ∧
    (importRun rejectFirstEnv [] ["sku", "name"] rows501).trace.getD 1
        FlushEvent.atomicOk = FlushEvent.perRecord := by
  have hrej : rowRejected (normHeaders ["sku", "name"]) (build_header_map (normHeaders ["sku", "name"])) ["a", "x"] = false := by decide
  have hone : ([["a", "x"]] : List (List String)) = List.replicate 1 ["a", "x"] := rfl
  have hsplit : rows501
      = List.replicate 499 ["a", "x"] ++ ([["a", "x"]] ++ [["a", "x"]]) := by
    rw [hone, ← List.replicate_add, ← List.replicate_add]
    rfl
  have hA : processRows rejectFirstEnv (normHeaders ["sku", "name"]) (build_header_map (normHeaders ["sku", "name"])) (initState []) (List.replicate 499 ["a", "x"])
      = { batch := List.replicate 499 (rowRecord (normHeaders ["sku", "name"]) (build_header_map (normHeaders ["sku", "name"])) ["a", "x"]), skipped := 0, errorLines := [], lineNo := 500, haveUpsert := true, flushCount := 0, working := [], trace := [] } :=
    processRows_replicate_fill rejectFirstEnv (normHeaders ["sku", "name"]) (build_header_map (normHeaders ["sku", "name"])) ["a", "x"] hrej 499 (initState []) (by decide)
  have hB : ∀ w : Store, processRows rejectFirstEnv (normHeaders ["sku", "name"]) (build_header_map (normHeaders ["sku", "name"]))
      { batch := List.replicate 499 (rowRecord (normHeaders ["sku", "name"]) (build_header_map (normHeaders ["sku", "name"])) ["a", "x"]), skipped := 0, errorLines := [], lineNo := 500, haveUpsert := true, flushCount := 0, working := w, trace := [] } [["a", "x"]]
      = { batch := [], skipped := 0, errorLines := [], lineNo := 501, haveUpsert := false, flushCount := 1, working := applyManual w (List.replicate 499 (rowRecord (normHeaders ["sku", "name"]) (build_header_map (normHeaders ["sku", "name"])) ["a", "x"]) ++ [rowRecord (normHeaders ["sku", "name"]) (build_header_map (normHeaders ["sku", "name"])) ["a", "x"]]), trace := [FlushEvent.fallback] } :=
    fun w => processRow_accept_flush_reject rejectFirstEnv (normHeaders ["sku", "name"]) (build_header_map (normHeaders ["sku", "name"]))
      { batch := List.replicate 499 (rowRecord (normHeaders ["sku", "name"]) (build_header_map (normHeaders ["sku", "name"])) ["a", "x"]), skipped := 0, errorLines := [], lineNo := 500, haveUpsert := true, flushCount := 0, working := w, trace := [] } ["a", "x"] hrej (by simp only [List.length_append, List.length_replicate, List.length_singleton, List.length_nil]; decide) rfl rfl
  have hC : ∀ w : Store, processRows rejectFirstEnv (normHeaders ["sku", "name"]) (build_header_map (normHeaders ["sku", "name"]))
      { batch := [], skipped := 0, errorLines := [], lineNo := 501, haveUpsert := false, flushCount := 1, working := w, trace := [FlushEvent.fallback] } [["a", "x"]]
      = { batch := [rowRecord (normHeaders ["sku", "name"]) (build_header_map (normHeaders ["sku", "name"])) ["a", "x"]], skipped := 0, errorLines := [], lineNo := 502, haveUpsert := false, flushCount := 1, working := w, trace := [FlushEvent.fallback] } :=
    fun w => processRow_accept_nofill rejectFirstEnv (normHeaders ["sku", "name"]) (build_header_map (normHeaders ["sku", "name"]))
      { batch := [], skipped := 0, errorLines := [], lineNo := 501, haveUpsert := false, flushCount := 1, working := w, trace := [FlushEvent.fallback] } ["a", "x"] hrej (by simp only [List.length_append, List.length_replicate, List.length_singleton, List.length_nil]; decide)
  have hrows : processRows rejectFirstEnv (normHeaders ["sku", "name"]) (build_header_map (normHeaders ["sku", "name"])) (initState []) rows501
      = { batch := [rowRecord (normHeaders ["sku", "name"]) (build_header_map (normHeaders ["sku", "name"])) ["a", "x"]], skipped := 0, errorLines := [], lineNo := 502, haveUpsert := false, flushCount := 1, working := applyManual [] (List.replicate 499 (rowRecord (normHeaders ["sku", "name"]) (build_header_map (normHeaders ["sku", "name"])) ["a", "x"]) ++ [rowRecord (normHeaders ["sku", "name"]) (build_header_map (normHeaders ["sku", "name"])) ["a", "x"]]), trace := [FlushEvent.fallback] } := by
    rw [hsplit, processRows_append, processRows_append, hA, hB [],
      hC (applyManual [] (List.replicate 499 (rowRecord (normHeaders ["sku", "name"]) (build_header_map (normHeaders ["sku", "name"])) ["a", "x"]) ++ [rowRecord (normHeaders ["sku", "name"]) (build_header_map (normHeaders ["sku", "name"])) ["a", "x"]]))]
  have hpf := processFile_trailing_perRecord rejectFirstEnv (normHeaders ["sku", "name"])
    (build_header_map (normHeaders ["sku", "name"])) (initState []) rows501 _ hrows rfl rfl
    (by decide)
  have hrun := @importRun_eq_of_ok rejectFirstEnv [] ["sku", "name"] rows501 _ rfl hpf
  have hok : (importRun rejectFirstEnv [] ["sku", "name"] rows501).fatalError = false := by
    rw [hrun]
  refine ⟨?_, ?_, ?_⟩
  · exact claim_c5_sticky_fallback.1 (fun _ => StoreResp.rejectAtomic)
      { batch := [⟨"a", "n", 0, 0, "", "", "", ""⟩], skipped := 0, errorLines := [],
        lineNo := 1, haveUpsert := true, flushCount := 0, working := [], trace := [] }
      (by decide) rfl rfl
  · right
    obtain ⟨-, Δ, h1, h2⟩ := claim_c5_sticky_fallback.2.1 (fun _ => StoreResp.ok) []
      (build_header_map []) { (initState []) with haveUpsert := false } [] _ rfl rfl
    exact ⟨Δ, h1, h2⟩
  · have h1 : 1 < (importRun rejectFirstEnv [] ["sku", "name"] rows501).trace.length := by
      rw [hrun]
      decide
    have h0 : 0 < (importRun rejectFirstEnv [] ["sku", "name"] rows501).trace.length := by
      omega
    have hg1 : ∀ (l : List FlushEvent) (h : 1 < l.length) (d : FlushEvent),
        l.getD 1 d = l.get ⟨1, h⟩ := by
      intro l h d
      cases l with
      | nil => simp at h
      | cons a t =>
        cases t with
        | nil => simp at h
        | cons b t2 => rfl
    have hg0 : ∀ (l : List FlushEvent) (h : 0 < l.length) (d : FlushEvent),
        l.getD 0 d = l.get ⟨0, h⟩ := by
      intro l h d
      cases l with
      | nil => simp at h
      | cons a t => rfl
    have hne0 : (importRun rejectFirstEnv [] ["sku", "name"] rows501).trace.get ⟨0, h0⟩
        ≠ FlushEvent.atomicOk := by
      rw [← hg0 _ h0 FlushEvent.atomicOk, hrun]
      decide
    have htr := claim_c5_sticky_fallback.2.2 rejectFirstEnv [] ["sku", "name"] rows501
      hok 0 1 h0 h1 (by omega) hne0
    rw [hg1 _ h1 FlushEvent.atomicOk, htr]

theorem skipMsg_mem_diagsFrom (hn : List String) (tm : Target → Option ℕ) :
    ∀ (rows : List (List String)) (s k : ℕ) (hk : k < rows.length),
      rowRejected hn tm (rows.get ⟨k, hk⟩) = true →
      skipMsg (s + k + 1) ∈ diagsFrom hn tm s rows := by
  intro rows
  induction rows with
  | nil => intro s k hk; simp at hk
  | cons row rest ih =>
    intro s k hk hrej
    cases k with
    | zero =>
      rw [diagsFrom, if_pos (by simpa using hrej)]
      simp
    | succ k =>
      have hk2 : k < rest.length := by simpa using hk
      have hmem := ih (s + 1) k hk2 (by simpa using hrej)
      have harg : s + 1 + k + 1 = s + (k + 1) + 1 := by omega
      rw [harg] at hmem
      rw [diagsFrom]
      by_cases hr : rowRejected hn tm row = true
      · rw [if_pos hr]
        exact List.mem_cons_of_mem _ hmem
      · rw [if_neg hr]
        exact hmem

theorem acceptedRecords_split (hn : List String) (tm : Target → Option ℕ)
    (rows : List (List String)) (k : ℕ) (hk : k < rows.length)
    (hrej : rowRejected hn tm (rows.get ⟨k, hk⟩) = true) :
    acceptedRecords hn tm rows
      = acceptedRecords hn tm (rows.take k) ++ acceptedRecords hn tm (rows.drop (k + 1)) := by
  have hsplit : rows = rows.take k ++ rows.get ⟨k, hk⟩ :: rows.drop (k + 1) := by
    conv_lhs => rw [← List.take_append_drop k rows]
    congr 1
    rw [List.drop_eq_getElem_cons hk]
    rfl
  conv_lhs => rw [hsplit]
  unfold acceptedRecords
  rw [List.filterMap_append, List.filterMap_cons]
  have hrejE : rowRejected hn tm rows[k] = true := hrej
  simp [hrej, hrejE]

/-- C6: in a run whose store never raises the fatal error and whose file
has a header row, the run completes without fatal error, the skipped
counter counts exactly the rejected rows, and the diagnostics are exactly
the per-line skip messages; a row whose resolved sku or name cell is empty
after cleaning (the k-th data row, 0-based) yields the diagnostic for
1-based line `k + 2` (the header row is line 1), is excluded from the
store, and all rows before and after it are still processed into the
committed store. -/
theorem claim_c6_row_rejection (env : ℕ → StoreResp) (initial : Store)
    (rawHeaders : List String) (rows : List (List String))
    (henv : ∀ n, env n ≠ StoreResp.fatalStore)
    (hhdr : rawHeaders.isEmpty = false) :
    (importRun env initial rawHeaders rows).fatalError = false ∧
    (importRun env initial rawHeaders rows).skipped
        = rows.countP (fun row => rowRejected (normHeaders rawHeaders)
            (build_header_map (normHeaders rawHeaders)) row) ∧
    (importRun env initial rawHeaders rows).diagnostics
        = diagsFrom (normHeaders rawHeaders) (build_header_map (normHeaders rawHeaders)) 1 rows ∧
    ∀ k (hk : k < rows.length),
      rowRejected (normHeaders rawHeaders) (build_header_map (normHeaders rawHeaders))
          (rows.get ⟨k, hk⟩) = true →
      skipMsg (k + 2) ∈ (importRun env initial rawHeaders rows).diagnostics ∧
      (importRun env initial rawHeaders rows).committed
        = applyConflict initial
            (acceptedRecords (normHeaders rawHeaders)
                (build_header_map (normHeaders rawHeaders)) (rows.take k)
             ++ acceptedRecords (normHeaders rawHeaders)
                (build_header_map (normHeaders rawHeaders)) (rows.drop (k + 1))) := by
  obtain ⟨hok, hskip, hdiag⟩ := importRun_nofatal_spec henv hhdr
  obtain ⟨hcom, -⟩ := importRun_ok_spec hok
  refine ⟨hok, hskip, hdiag, ?_⟩
  intro k hk hrej
  constructor
  · rw [hdiag]
    have := skipMsg_mem_diagsFrom (normHeaders rawHeaders)
      (build_header_map (normHeaders rawHeaders)) rows 1 k hk hrej
    rwa [show 1 + k + 1 = k + 2 from by omega] at this
  · rw [hcom, acceptedRecords_split _ _ rows k hk hrej]

/-- Witness for C6: header `sku, name`, two data rows, the second missing its
sku; the run skips one row, logs line 3, and commits only the first row. -/
theorem claim_c6_row_rejection_witness :
    (importRun (fun _ => StoreResp.ok) [] ["sku", "name"] [["a", "x"], ["", "y"]]).skipped
        = ([["a", "x"], ["", "y"]] : List (List String)).countP
            (fun row => rowRejected (normHeaders ["sku", "name"])
              (build_header_map (normHeaders ["sku", "name"])) row) ∧
    skipMsg 3 ∈ (importRun (fun _ => StoreResp.ok) [] ["sku", "name"]
        [["a", "x"], ["", "y"]]).diagnostics ∧
    (importRun (fun _ => StoreResp.ok) [] ["sku", "name"]
        [["a", "x"], ["", "y"]]).committed
      = applyConflict []
          (acceptedRecords (normHeaders ["sku", "name"])
              (build_header_map (normHeaders ["sku", "name"]))
              (([["a", "x"], ["", "y"]] : List (List String)).take 1)
           ++ acceptedRecords (normHeaders ["sku", "name"])
              (build_header_map (normHeaders ["sku", "name"]))
              (([["a", "x"], ["", "y"]] : List (List String)).drop 2)) := by
  obtain ⟨-, h1, -, h3⟩ := claim_c6_row_rejection (fun _ => StoreResp.ok) []
    ["sku", "name"] [["a", "x"], ["", "y"]] (fun n h => StoreResp.noConfusion h) rfl
  obtain ⟨h4, h5⟩ := h3 1 (by decide) (by decide)
  exact ⟨h1, h4, h5⟩

/-- C2: importing the same file twice — the second run starting from the
first run's committed store — leaves the committed store exactly as after
the first run; the sku column stays duplicate-free, and every sku written by
the file is stored exactly once, with all non-key columns equal to the last
(hence the second run's) value for that sku.  The store behaviour oracles of
the two runs are independent, so this covers the atomic-upsert path and the
per-record fallback path in either run. -/
theorem claim_c2_idempotent_reimport (env1 env2 : ℕ → StoreResp) (initial : Store)
    (rawHeaders : List String) (rows : List (List String))
    (hnd : (skusOf initial).Nodup)
    (h1 : (importRun env1 initial rawHeaders rows).fatalError = false)
    (h2 : (importRun env2 (importRun env1 initial rawHeaders rows).committed
        rawHeaders rows).fatalError = false) :
    (importRun env2 (importRun env1 initial rawHeaders rows).committed
        rawHeaders rows).committed
      = (importRun env1 initial rawHeaders rows).committed ∧
    (skusOf (importRun env2 (importRun env1 initial rawHeaders rows).committed
        rawHeaders rows).committed).Nodup ∧
    ∀ k, k ∈ (acceptedRecords (normHeaders rawHeaders)
        (build_header_map (normHeaders rawHeaders)) rows).map Record.sku →
      (importRun env2 (importRun env1 initial rawHeaders rows).committed
          rawHeaders rows).committed.countP (fun r => r.sku == k) = 1 ∧
      lookupSku (importRun env2 (importRun env1 initial rawHeaders rows).committed
          rawHeaders rows).committed k
        = lastWrite (acceptedRecords (normHeaders rawHeaders)
            (build_header_map (normHeaders rawHeaders)) rows) k := by
  obtain ⟨hc1, -⟩ := importRun_ok_spec h1
  obtain ⟨hc2, -⟩ := importRun_ok_spec h2
  have hS2 : (importRun env2 (importRun env1 initial rawHeaders rows).committed
      rawHeaders rows).committed
        = applyConflict initial (acceptedRecords (normHeaders rawHeaders)
            (build_header_map (normHeaders rawHeaders)) rows) := by
    rw [hc2, hc1, applyConflict_idem initial _ hnd]
  have hnd2 : (skusOf (importRun env2 (importRun env1 initial rawHeaders rows).committed
      rawHeaders rows).committed).Nodup := by
    rw [hS2]
    exact nodup_skusOf_applyConflict _ initial hnd
  refine ⟨by rw [hS2, ← hc1], hnd2, ?_⟩
  intro k hkmem
  obtain ⟨r, hrA, hrk⟩ := List.mem_map.mp hkmem
  have hsome := lastWrite_isSome_of_mem hrA
  rw [hrk] at hsome
  obtain ⟨r2, hr2⟩ := Option.isSome_iff_exists.mp hsome
  have hlook : lookupSku (importRun env2 (importRun env1 initial rawHeaders rows).committed
      rawHeaders rows).committed k = some r2 := by
    rw [hS2, lookupSku_applyConflict _ initial k, hr2]
  refine ⟨?_, by rw [hlook, hr2]⟩
  exact countP_sku_eq_one _ k hnd2 (mem_skusOf_of_lookup_some hlook)

/-- Witness for C2: the one-row file `sku, name / a, x` imported twice from
the empty store. -/
theorem claim_c2_idempotent_reimport_witness :
    (importRun (fun _ => StoreResp.ok)
        (importRun (fun _ => StoreResp.ok) [] ["sku", "name"] [["a", "x"]]).committed
        ["sku", "name"] [["a", "x"]]).committed
      = (importRun (fun _ => StoreResp.ok) [] ["sku", "name"] [["a", "x"]]).committed ∧
    lookupSku (importRun (fun _ => StoreResp.ok)
        (importRun (fun _ => StoreResp.ok) [] ["sku", "name"] [["a", "x"]]).committed
        ["sku", "name"] [["a", "x"]]).committed "a"
      = lastWrite (acceptedRecords (normHeaders ["sku", "name"])
          (build_header_map (normHeaders ["sku", "name"])) [["a", "x"]]) "a" := by
  obtain ⟨w1, -, w3⟩ := claim_c2_idempotent_reimport (fun _ => StoreResp.ok)
    (fun _ => StoreResp.ok) [] ["sku", "name"] [["a", "x"]] (by decide) rfl rfl
  exact ⟨w1, (w3 "a" (by decide)).2⟩

/-- C10: when one file carries several accepted rows with the same sku —
in one batch or across batches, under the atomic path or the fallback — the
completed import stores exactly one record for that sku, and its non-key
columns are those of the last such row in file order. -/
theorem claim_c10_last_write_wins (env : ℕ → StoreResp) (initial : Store)
    (rawHeaders : List String) (rows : List (List String)) (k : String)
    (hnd : (skusOf initial).Nodup)
    (hok : (importRun env initial rawHeaders rows).fatalError = false)
    (hk : k ∈ (acceptedRecords (normHeaders rawHeaders)
        (build_header_map (normHeaders rawHeaders)) rows).map Record.sku) :
    (importRun env initial rawHeaders rows).committed.countP (fun r => r.sku == k) = 1 ∧
    lookupSku (importRun env initial rawHeaders rows).committed k
      = lastWrite (acceptedRecords (normHeaders rawHeaders)
          (build_header_map (normHeaders rawHeaders)) rows) k := by
  obtain ⟨hc, -⟩ := importRun_ok_spec hok
  have hnd2 : (skusOf (importRun env initial rawHeaders rows).committed).Nodup := by
    rw [hc]
    exact nodup_skusOf_applyConflict _ initial hnd
  obtain ⟨r, hrA, hrk⟩ := List.mem_map.mp hk
  have hsome := lastWrite_isSome_of_mem hrA
  rw [hrk] at hsome
  obtain ⟨r2, hr2⟩ := Option.isSome_iff_exists.mp hsome
  have hlook : lookupSku (importRun env initial rawHeaders rows).committed k = some r2 := by
    rw [hc, lookupSku_applyConflict _ initial k, hr2]
  refine ⟨?_, by rw [hlook, hr2]⟩
  exact countP_sku_eq_one _ k hnd2 (mem_skusOf_of_lookup_some hlook)

/-- Witness for C10: the file `sku, name / a, x / a, y` with two rows for
the same sku, imported into the empty store on the happy path. -/
theorem claim_c10_last_write_wins_witness :
    (importRun (fun _ => StoreResp.ok) [] ["sku", "name"]
        [["a", "x"], ["a", "y"]]).committed.countP (fun r => r.sku == "a") = 1 ∧
    lookupSku (importRun (fun _ => StoreResp.ok) [] ["sku", "name"]
        [["a", "x"], ["a", "y"]]).committed "a"
      = lastWrite (acceptedRecords (normHeaders ["sku", "name"])
          (build_header_map (normHeaders ["sku", "name"])) [["a", "x"], ["a", "y"]]) "a" :=
  claim_c10_last_write_wins (fun _ => StoreResp.ok) [] ["sku", "name"]
    [["a", "x"], ["a", "y"]] "a" (by decide) rfl (by decide)
